import Mathlib

/-! # Rotor-position encoder driver (`encoder.c`): shallow embedding

The driver keeps its state in file-scope globals; here they are the fields of
`EncoderState`, and every C entry point is a function on that record.

Conventions of the embedding:

* `uint16_t` / `uint32_t` values are `Nat`; a reduction `% 2^w` is written
  wherever the C operation can leave the width (`++` on the counters, `<<`).
* `float` and `double` values are the rationals they denote.  The floating-point
  operations written out in `encoder.c` are rounded one by one to binary32 (`f32`)
  or binary64 (`f64`), round-to-nearest-even, in the order and types of the C
  expression: no fused multiply-add, `FLT_EVAL_METHOD` 0, unbounded exponent range.
  The angle conversions of the two SPI decoders are exact in binary32
  (`pos * 360 < 2^24` and the divisor is a power of two) and carry no rounding.
* The macro `UTILS_LP_FAST` and the function `utils_fast_atan2` are not part of the
  sources: the filter step is taken as the spec gives it, in exact arithmetic, and
  the arctangent in degrees is a parameter.
* Pin configuration, clock enabling, NVIC calls and the peripheral-library
  calls `TIM_DeInit`, `TIM_TimeBaseInit`, `TIM_Cmd` have no effect on the
  driver variables and are left out.  Kept are the direct register accesses
  of this file (`HW_ENC_TIM->CNT`, and `ARR` through `TIM_SetAutoreload`) and
  the calls of `mc_interface_set_current`.
-/

namespace Encoder

/-- The private enumeration `encoder_mode`. -/
inductive encoder_mode where
  | ENCODER_MODE_NONE
  | ENCODER_MODE_ABI
  | ENCODER_MODE_AS5047P_SPI
  | RESOLVER_MODE_AD2S1205
  | ENCODER_MODE_SINCOS
  deriving DecidableEq, Repr

open encoder_mode

/-- Build-time and hardware parameters that `encoder.c` takes from `hw.h` and `utils.h`:
whether `HW_HAS_SIN_COS_ENCODER` is defined, and the value of
`utils_fast_atan2(sin, cos) * 180.0 / M_PI` as a function of `sin` and `cos`. -/
structure HwConfig where
  HW_HAS_SIN_COS_ENCODER : Bool
  atan2_deg : ℚ → ℚ → ℚ

/-- The file-scope variables of `encoder.c`, the function-static `angle` of
`encoder_read_deg`, the two timer registers the driver writes, and the list of
current commands issued to the motor-control module (most recent first). -/
structure EncoderState where
  index_found : Bool
  enc_counts : Nat
  mode : encoder_mode
  last_enc_angle : ℚ
  spi_val : Nat
  spi_error_cnt : Nat
  spi_error_rate : ℚ
  sin_gain : ℚ
  sin_offset : ℚ
  cos_gain : ℚ
  cos_offset : ℚ
  sincos_filter_constant : ℚ
  sincos_signal_below_min_error_cnt : Nat
  sincos_signal_above_max_error_cnt : Nat
  sincos_signal_low_error_rate : ℚ
  sincos_signal_above_max_error_rate : ℚ
  angle : ℚ
  tim_cnt : Nat
  tim_arr : Nat
  current_cmds : List ℚ
  deriving DecidableEq, Repr

/-- The initialisers of the globals (state at startup). -/
def startup : EncoderState where
  index_found := true
  enc_counts := 10000
  mode := ENCODER_MODE_NONE
  last_enc_angle := 0
  spi_val := 0
  spi_error_cnt := 0
  spi_error_rate := 0
  sin_gain := 0
  sin_offset := 0
  cos_gain := 0
  cos_offset := 0
  sincos_filter_constant := 0
  sincos_signal_below_min_error_cnt := 0
  sincos_signal_above_max_error_cnt := 0
  sincos_signal_low_error_rate := 0
  sincos_signal_above_max_error_rate := 0
  angle := 0
  tim_cnt := 0
  tim_arr := 0
  current_cmds := []

/-- Modelled from the spec: the macro `UTILS_LP_FAST(value, sample, filter_constant)` of
`utils.h`, which is not part of the sources; the glossary gives the filter step as
`value += (target - value) * time_constant`.  The result is the new `value`. -/
def UTILS_LP_FAST (value sample filter_constant : ℚ) : ℚ :=
  value + (sample - value) * filter_constant

/-- Round to the nearest integer, ties to the even one. -/
def round_half_even (q : ℚ) : ℤ :=
  if q - ⌊q⌋ < 1 / 2 then ⌊q⌋
  else if 1 / 2 < q - ⌊q⌋ then ⌊q⌋ + 1
  else if ⌊q⌋ % 2 = 0 then ⌊q⌋ else ⌊q⌋ + 1

/-- The exponent of the unit in the last place of `q` for a `prec`-bit significand. -/
def ulp_exp (prec : Nat) (q : ℚ) : ℤ :=
  Int.log 2 |q| - ((prec : ℤ) - 1)

/-- The value nearest to `q` that has a `prec`-bit significand, ties to even: IEEE 754
round-to-nearest.  The exponent range is not limited (overflow and subnormal numbers are
not modelled). -/
def round_prec (prec : Nat) (q : ℚ) : ℚ :=
  (round_half_even (q / (2 : ℚ) ^ ulp_exp prec q) : ℚ) * (2 : ℚ) ^ ulp_exp prec q

/-- Rounding to binary32, the C type `float`. -/
def f32 (q : ℚ) : ℚ := round_prec 24 q

/-- Rounding to binary64, the C type `double`. -/
def f64 (q : ℚ) : ℚ := round_prec 53 q

/-- Modelled from the spec: the macro `SQ(x)` of `utils.h`, which is not part of the
sources; the thresholds are "compared in squared form", `sin^2 + cos^2`.  This is the
macro at type `double`, as in `SQ(SINCOS_MAX_AMPLITUDE)`: one `double` product. -/
def SQ (x : ℚ) : ℚ := f64 (x * x)

/-- Modelled from the spec: the macro `SQ(x)` at type `float`, as in `SQ(sin)`: one `float`
product. -/
def SQ_float (x : ℚ) : ℚ := f32 (x * x)

/-- The constant `AS5047_SAMPLE_RATE_HZ`. -/
def AS5047_SAMPLE_RATE_HZ : ℚ := 20000

/-- The constant `SINCOS_SAMPLE_RATE_HZ`. -/
def SINCOS_SAMPLE_RATE_HZ : ℚ := 20000

/-- The constant `SINCOS_MIN_AMPLITUDE`: the `double` literal `1.0`. -/
def SINCOS_MIN_AMPLITUDE : ℚ := f64 1

/-- The constant `SINCOS_MAX_AMPLITUDE`: the `double` literal `1.65`, the binary64 value
nearest to 165/100. -/
def SINCOS_MAX_AMPLITUDE : ℚ := f64 (165 / 100)

/-- `spi_check_parity`: the shift-XOR fold of a 16-bit word; `true` for an even number
of ones.  On a `uint16_t` neither `>>` nor `^` leaves 16 bits, so no reduction is
needed; `~x` is taken on the promoted 32-bit `int`, of which only bit 0 is used. -/
def spi_check_parity (x : Nat) : Bool :=
  let x := x ^^^ (x >>> 8)
  let x := x ^^^ (x >>> 4)
  let x := x ^^^ (x >>> 2)
  let x := x ^^^ (x >>> 1)
  ((x ^^^ 0xFFFFFFFF) &&& 1) != 0

/-- `palReadPad`: the logic level of a pad as the integer 0 or 1. -/
def palReadPad (level : Bool) : Nat := if level then 1 else 0

/-- The body of the `for (int bit = 0; bit < 16; bit++)` loop of `spi_transfer`, run for
`n` more clock pulses.  `miso k` is the level of the input line at the `k`-th read of the
pad, `k` the index of the next read, `recieve` the word shifted in so far.  The
variable `send` is dead code in the source (the MOSI write is commented out). -/
def spi_transfer_bits (miso : Nat → Bool) : Nat → Nat → Nat → Nat
  | 0, _, recieve => recieve
  | n + 1, k, recieve =>
    let samples := palReadPad (miso k) + palReadPad (miso (k + 1)) + palReadPad (miso (k + 2))
      + palReadPad (miso (k + 3)) + palReadPad (miso (k + 4))
    let recieve := (recieve <<< 1) % 65536
    let recieve := if samples > 2 then recieve ||| 1 else recieve
    spi_transfer_bits miso n (k + 5) recieve

/-- `spi_transfer(in_buf, 0, length)`: the contents of `in_buf` after the transfer; word
`i` is clocked in by the pad reads `80 * i .. 80 * i + 79`. -/
def spi_transfer (miso : Nat → Bool) (length : Nat) : List Nat :=
  (List.range length).map (fun i => spi_transfer_bits miso 16 (80 * i) 0)

/-- The word received by a one-word transfer, `pos` after `spi_transfer(&pos, 0, 1)`. -/
def received_word (miso : Nat → Bool) : Nat :=
  (spi_transfer miso 1).headD 0

/-- `encoder_deinit`. -/
def encoder_deinit (s : EncoderState) : EncoderState :=
  { s with
    index_found := false
    mode := ENCODER_MODE_NONE
    last_enc_angle := 0
    spi_error_rate := 0
    sincos_signal_low_error_rate := 0
    sincos_signal_above_max_error_rate := 0 }

/-- `encoder_init_abi(counts)`: `ARR = 3 * enc_counts - 1` and `CNT = 3 * enc_counts / 2`
in `uint32_t` arithmetic. -/
def encoder_init_abi (counts : Nat) (s : EncoderState) : EncoderState :=
  { s with
    index_found := false
    enc_counts := counts
    tim_arr := (3 * counts % 2 ^ 32 + (2 ^ 32 - 1)) % 2 ^ 32
    tim_cnt := 3 * counts % 2 ^ 32 / 2
    mode := ENCODER_MODE_ABI }

/-- `encoder_init_as5047p_spi`. -/
def encoder_init_as5047p_spi (s : EncoderState) : EncoderState :=
  { s with
    mode := ENCODER_MODE_AS5047P_SPI
    index_found := true
    spi_error_rate := 0 }

/-- `encoder_init_ad2s1205_spi`. -/
def encoder_init_ad2s1205_spi (s : EncoderState) : EncoderState :=
  { s with
    mode := RESOLVER_MODE_AD2S1205
    index_found := true }

/-- `encoder_init_sincos(s_gain, s_offset, c_gain, c_offset, filter_constant)`. -/
def encoder_init_sincos (p : HwConfig) (s_gain s_offset c_gain c_offset filter_constant : ℚ)
    (s : EncoderState) : EncoderState :=
  { s with
    sin_gain := s_gain
    sin_offset := s_offset
    cos_gain := c_gain
    cos_offset := c_offset
    sincos_filter_constant := filter_constant
    sincos_signal_below_min_error_cnt := 0
    sincos_signal_above_max_error_cnt := 0
    sincos_signal_low_error_rate := 0
    sincos_signal_above_max_error_rate := 0
    mode := if p.HW_HAS_SIN_COS_ENCODER then ENCODER_MODE_SINCOS else ENCODER_MODE_NONE
    index_found := p.HW_HAS_SIN_COS_ENCODER }

/-- `encoder_is_configured`. -/
def encoder_is_configured (s : EncoderState) : Bool :=
  s.mode != ENCODER_MODE_NONE

/-- The `ENCODER_MODE_SINCOS` case of `encoder_read_deg`; `sin_volts` and `cos_volts`
are the readings `ENCODER_SIN_VOLTS` and `ENCODER_COS_VOLTS`, taken as `float` values.
`sin`, `cos` and `module` are `float` variables; the two thresholds are `double`
expressions, with which the `float` `module` is compared after an exact promotion. -/
def encoder_read_deg_sincos (p : HwConfig) (sin_volts cos_volts : ℚ)
    (s : EncoderState) : EncoderState :=
  let sin := f32 (f32 (sin_volts * s.sin_gain) - s.sin_offset)
  let cos := f32 (f32 (cos_volts * s.cos_gain) - s.cos_offset)
  let module := f32 (SQ_float sin + SQ_float cos)
  if module > SQ SINCOS_MAX_AMPLITUDE then
    { s with
      sincos_signal_above_max_error_cnt := (s.sincos_signal_above_max_error_cnt + 1) % 2 ^ 32
      sincos_signal_above_max_error_rate :=
        UTILS_LP_FAST s.sincos_signal_above_max_error_rate 1 (1 / SINCOS_SAMPLE_RATE_HZ)
      angle := s.last_enc_angle }
  else if module < SQ SINCOS_MIN_AMPLITUDE then
    { s with
      sincos_signal_below_min_error_cnt := (s.sincos_signal_below_min_error_cnt + 1) % 2 ^ 32
      sincos_signal_low_error_rate :=
        UTILS_LP_FAST s.sincos_signal_low_error_rate 1 (1 / SINCOS_SAMPLE_RATE_HZ)
      angle := s.last_enc_angle }
  else
    let angle_tmp := p.atan2_deg sin cos
    let angle := UTILS_LP_FAST s.angle angle_tmp s.sincos_filter_constant
    { s with
      sincos_signal_above_max_error_rate :=
        UTILS_LP_FAST s.sincos_signal_above_max_error_rate 0 (1 / SINCOS_SAMPLE_RATE_HZ)
      sincos_signal_low_error_rate :=
        UTILS_LP_FAST s.sincos_signal_low_error_rate 0 (1 / SINCOS_SAMPLE_RATE_HZ)
      angle := angle
      last_enc_angle := angle }

/-- The quadrature angle `((float)HW_ENC_TIM->CNT * 360.0) / (float)enc_counts` as stored
in the `float` variable `angle`: both integers are converted to `float`, the product with
the `double` constant and the quotient are `double` operations, and the assignment rounds
to `float`.  (For `counts = 0` the C quotient is infinite or not a number; here it is 0.) -/
def abi_angle (cnt counts : Nat) : ℚ :=
  f32 (f64 (f64 (f32 (cnt : ℚ) * 360) / f32 (counts : ℚ)))

/-- `encoder_read_deg`: the returned angle and the state after the call.  The counter
`HW_ENC_TIM->CNT` is read from the state; the two analog readings are arguments. -/
def encoder_read_deg (p : HwConfig) (sin_volts cos_volts : ℚ)
    (s : EncoderState) : ℚ × EncoderState :=
  let s1 : EncoderState :=
    match s.mode with
    | ENCODER_MODE_ABI => { s with angle := abi_angle s.tim_cnt s.enc_counts }
    | ENCODER_MODE_AS5047P_SPI => { s with angle := s.last_enc_angle }
    | RESOLVER_MODE_AD2S1205 => { s with angle := s.last_enc_angle }
    | ENCODER_MODE_SINCOS =>
      if p.HW_HAS_SIN_COS_ENCODER then encoder_read_deg_sincos p sin_volts cos_volts s else s
    | ENCODER_MODE_NONE => s
  (s1.angle, s1)

/-- `encoder_reset`; `index_pin` is the level read from the index pad. -/
def encoder_reset (index_pin : Bool) (s : EncoderState) : EncoderState :=
  if palReadPad index_pin != 0 then { s with current_cmds := 0 :: s.current_cmds } else s

/-- The `ENCODER_MODE_AS5047P_SPI` block of `encoder_tim_isr`. -/
def encoder_tim_isr_as5047p (miso : Nat → Bool) (s : EncoderState) : EncoderState :=
  let pos := received_word miso
  let s := { s with spi_val := pos }
  if spi_check_parity pos && pos != 0xffff then
    let pos := pos &&& 0x3FFF
    { s with
      last_enc_angle := ((pos : ℚ) * 360) / 16384
      spi_error_rate := UTILS_LP_FAST s.spi_error_rate 0 (1 / AS5047_SAMPLE_RATE_HZ) }
  else
    { s with
      spi_error_cnt := (s.spi_error_cnt + 1) % 2 ^ 32
      spi_error_rate := UTILS_LP_FAST s.spi_error_rate 1 (1 / AS5047_SAMPLE_RATE_HZ) }

/-- The `RESOLVER_MODE_AD2S1205` block of `encoder_tim_isr`. -/
def encoder_tim_isr_ad2s1205 (miso : Nat → Bool) (s : EncoderState) : EncoderState :=
  let pos := received_word miso
  let RDVEL := pos &&& 0x08
  let DOS := pos &&& 0x04
  let LOT := pos &&& 0x02
  let pos := pos &&& 0xFFF0
  let pos := pos >>> 4
  let pos := pos &&& 0x0FFF
  if RDVEL != 0 && DOS != 0 && LOT != 0 then
    { s with last_enc_angle := ((pos : ℚ) * 360) / 4096 }
  else s

/-- `encoder_tim_isr`: the two mode tests in sequence; neither block writes `mode`. -/
def encoder_tim_isr (miso : Nat → Bool) (s : EncoderState) : EncoderState :=
  let s := if s.mode = ENCODER_MODE_AS5047P_SPI then encoder_tim_isr_as5047p miso s else s
  if s.mode = RESOLVER_MODE_AD2S1205 then encoder_tim_isr_ad2s1205 miso s else s

/-- `encoder_set_counts(counts)`. -/
def encoder_set_counts (counts : Nat) (s : EncoderState) : EncoderState :=
  if counts != s.enc_counts then
    { s with
      enc_counts := counts
      tim_arr := (3 * counts % 2 ^ 32 + (2 ^ 32 - 1)) % 2 ^ 32 }
  else s

/-- `encoder_index_found`. -/
def encoder_index_found (_s : EncoderState) : Bool := true

/-- The number of 1 bits among the 16 bits of a word. -/
def popcount16 (x : Nat) : Nat :=
  ((List.range 16).map (fun i => (x.testBit i).toNat)).sum

/-- The sum of the five pad reads of the clock pulse whose first read has index `k`. -/
def pulse_samples (miso : Nat → Bool) (k : Nat) : Nat :=
  palReadPad (miso k) + palReadPad (miso (k + 1)) + palReadPad (miso (k + 2))
    + palReadPad (miso (k + 3)) + palReadPad (miso (k + 4))

/-- How many of the five samples taken during clock pulse `i` are high. -/
def ones_in_pulse (miso : Nat → Bool) (i : Nat) : Nat :=
  (List.range 5).countP (fun j => miso (5 * i + j))

/-- An input line that holds bit `15 - i` of `w` steady during clock pulse `i`. -/
def miso_of_word (w : Nat) : Nat → Bool :=
  fun k => w.testBit (15 - k / 5)

/-- Three of the five samples of pulse `i` are the same on both lines and agree with
each other; the two remaining samples are unconstrained. -/
def three_agree (miso miso2 : Nat → Bool) (i : Nat) : Prop :=
  ∃ a, a < 5 ∧ ∃ b, b < 5 ∧ ∃ c, c < 5 ∧ a < b ∧ b < c ∧
    miso (5 * i + a) = miso (5 * i + b) ∧ miso (5 * i + b) = miso (5 * i + c) ∧
    miso2 (5 * i + a) = miso (5 * i + a) ∧ miso2 (5 * i + b) = miso (5 * i + b) ∧
    miso2 (5 * i + c) = miso (5 * i + c)

instance (miso miso2 : Nat → Bool) (i : Nat) : Decidable (three_agree miso miso2 i) := by
  unfold three_agree
  infer_instance

/-- A line carrying the word `0x8001` with two glitched samples in every clock pulse:
the first three samples of a pulse hold the bit, the last two are inverted. -/
def miso_glitched : Nat → Bool :=
  fun k => if k % 5 < 3 then miso_of_word 0x8001 k else !(miso_of_word 0x8001 k)

/-- The `float` variable `sin` of `encoder_read_deg`:
`ENCODER_SIN_VOLTS * sin_gain - sin_offset`, a `float` product and a `float` difference. -/
def calibrated_sin (s : EncoderState) (sin_volts : ℚ) : ℚ :=
  f32 (f32 (sin_volts * s.sin_gain) - s.sin_offset)

/-- The `float` variable `cos` of `encoder_read_deg`:
`ENCODER_COS_VOLTS * cos_gain - cos_offset`. -/
def calibrated_cos (s : EncoderState) (cos_volts : ℚ) : ℚ :=
  f32 (f32 (cos_volts * s.cos_gain) - s.cos_offset)

/-- The `float` variable `module = SQ(sin) + SQ(cos)` of `encoder_read_deg`: two `float`
products and a `float` sum. -/
def sincos_module (s : EncoderState) (sin_volts cos_volts : ℚ) : ℚ :=
  f32 (SQ_float (calibrated_sin s sin_volts) + SQ_float (calibrated_cos s cos_volts))

/-- A board without the analog sin/cos option. -/
def hw_plain : HwConfig := ⟨false, fun _ _ => 0⟩

/-- A board with the analog sin/cos option whose arctangent is exact on the coordinate
axes, the only points the concrete examples below evaluate it at. -/
def hw_sincos : HwConfig :=
  ⟨true, fun s c =>
    if c = 0 then (if 0 < s then 90 else if s < 0 then -90 else 0)
    else if s = 0 then (if 0 < c then 0 else 180) else 0⟩

/-- Sin/cos mode with unit gains, zero offsets and filter constant 1/2, right after
startup. -/
def sincos_unit_state : EncoderState :=
  encoder_init_sincos hw_sincos 1 0 1 0 (1 / 2) startup

/-- `encoder_spi_get_error_cnt`. -/
def encoder_spi_get_error_cnt (s : EncoderState) : Nat := s.spi_error_cnt

/-- `encoder_spi_get_val`. -/
def encoder_spi_get_val (s : EncoderState) : Nat := s.spi_val

/-- `encoder_spi_get_error_rate`. -/
def encoder_spi_get_error_rate (s : EncoderState) : ℚ := s.spi_error_rate

/-- `encoder_sincos_get_signal_below_min_error_cnt`. -/
def encoder_sincos_get_signal_below_min_error_cnt (s : EncoderState) : Nat :=
  s.sincos_signal_below_min_error_cnt

/-- `encoder_sincos_get_signal_above_max_error_cnt`. -/
def encoder_sincos_get_signal_above_max_error_cnt (s : EncoderState) : Nat :=
  s.sincos_signal_above_max_error_cnt

/-- `encoder_sincos_get_signal_below_min_error_rate`. -/
def encoder_sincos_get_signal_below_min_error_rate (s : EncoderState) : ℚ :=
  s.sincos_signal_low_error_rate

/-- `encoder_sincos_get_signal_above_max_error_rate`. -/
def encoder_sincos_get_signal_above_max_error_rate (s : EncoderState) : ℚ :=
  s.sincos_signal_above_max_error_rate

/-- One event at the boundary of the driver: a call of an entry point with its arguments
and the hardware inputs it reads, or a movement of the quadrature counter `CNT`. -/
inductive DriverEvent where
  | deinit
  | init_abi (counts : Nat)
  | init_as5047p_spi
  | init_ad2s1205_spi
  | init_sincos (s_gain s_offset c_gain c_offset filter_constant : ℚ)
  | read_deg (sin_volts cos_volts : ℚ)
  | tim_isr (miso : Nat → Bool)
  | reset (index_pin : Bool)
  | set_counts (counts : Nat)
  | counter_moves (cnt : Nat)

/-- The state after one event. -/
def step (p : HwConfig) : DriverEvent → EncoderState → EncoderState
  | .deinit, s => encoder_deinit s
  | .init_abi counts, s => encoder_init_abi counts s
  | .init_as5047p_spi, s => encoder_init_as5047p_spi s
  | .init_ad2s1205_spi, s => encoder_init_ad2s1205_spi s
  | .init_sincos g_s o_s g_c o_c k, s => encoder_init_sincos p g_s o_s g_c o_c k s
  | .read_deg sv cv, s => (encoder_read_deg p sv cv s).2
  | .tim_isr miso, s => encoder_tim_isr miso s
  | .reset pin, s => encoder_reset pin s
  | .set_counts counts, s => encoder_set_counts counts s
  | .counter_moves cnt, s => { s with tim_cnt := cnt }

/-- The state after a sequence of events, first event first. -/
def run (p : HwConfig) (evs : List DriverEvent) (s : EncoderState) : EncoderState :=
  evs.foldl (fun st e => step p e st) s

/-- All three filtered fault rates lie in `[0, 1]`. -/
def rates_in_unit_interval (s : EncoderState) : Prop :=
  (0 ≤ s.spi_error_rate ∧ s.spi_error_rate ≤ 1)
    ∧ (0 ≤ s.sincos_signal_low_error_rate ∧ s.sincos_signal_low_error_rate ≤ 1)
    ∧ (0 ≤ s.sincos_signal_above_max_error_rate ∧ s.sincos_signal_above_max_error_rate ≤ 1)

/-- The state after `n` consecutive calls of `encoder_read_deg` with the same analog
readings. -/
def repeated_reads (p : HwConfig) (sin_volts cos_volts : ℚ) : Nat → EncoderState → EncoderState
  | 0, s => s
  | n + 1, s => (encoder_read_deg p sin_volts cos_volts (repeated_reads p sin_volts cos_volts n s)).2

/-- The state after a sequence of timer ticks, one received line trace per tick. -/
def ticks (misos : List (Nat → Bool)) (s : EncoderState) : EncoderState :=
  misos.foldl (fun st miso => encoder_tim_isr miso st) s

/-- A run that starts in quadrature mode with 8192 counts, lets the counter reach `c`,
reads the angle once, and then switches to sin/cos mode with unit gains, zero offsets and
filter constant 1/2. -/
def abi_then_sincos (c : Nat) : List DriverEvent :=
  [DriverEvent.init_abi 8192, DriverEvent.counter_moves c, DriverEvent.read_deg 0 0,
    DriverEvent.init_sincos 1 0 1 0 (1 / 2)]
/-- Absolute-SPI mode after one timer tick that received the all-ones word. -/
def as5047p_after_fault : EncoderState :=
  run hw_plain [DriverEvent.init_as5047p_spi, DriverEvent.tim_isr (miso_of_word 0xFFFF)] startup

/-- Sin/cos mode with unit gains after one read of the saturated sample `(2, 0)`. -/
def sincos_after_fault : EncoderState :=
  (encoder_read_deg hw_sincos 2 0 sincos_unit_state).2

/-- Quadrature mode with 8192 counts after one read, followed by `encoder_deinit`. -/
def abi_read_then_deinit : EncoderState :=
  run hw_plain [DriverEvent.init_abi 8192, DriverEvent.read_deg 0 0, DriverEvent.deinit] startup

/-- Quadrature mode with 7 counts per revolution and the counter at 1. -/
def abi_seven_counts : EncoderState :=
  run hw_plain [DriverEvent.init_abi 7, DriverEvent.counter_moves 1] startup

theorem round_half_even_cases (q : ℚ) :
    round_half_even q = ⌊q⌋ ∧ q - ⌊q⌋ ≤ 1 / 2
      ∨ round_half_even q = ⌊q⌋ + 1 ∧ 1 / 2 ≤ q - ⌊q⌋ := by
  unfold round_half_even
  split_ifs with h1 h2 h3
  · exact Or.inl ⟨rfl, le_of_lt h1⟩
  · exact Or.inr ⟨rfl, le_of_lt h2⟩
  · exact Or.inl ⟨rfl, not_lt.mp h2⟩
  · exact Or.inr ⟨rfl, not_lt.mp h1⟩

theorem round_half_even_intCast (n : ℤ) : round_half_even (n : ℚ) = n := by
  unfold round_half_even
  simp

theorem round_half_even_le (q : ℚ) (R : ℤ) (h : q ≤ R) : round_half_even q ≤ R := by
  rcases round_half_even_cases q with ⟨e, _⟩ | ⟨e, hf⟩
  · rw [e]
    have hfl : (⌊q⌋ : ℚ) ≤ R := le_trans (Int.floor_le q) h
    exact_mod_cast hfl
  · rw [e]
    have hlt : (⌊q⌋ : ℚ) < R := by linarith
    have : ⌊q⌋ < R := by exact_mod_cast hlt
    omega

theorem le_round_half_even (q : ℚ) (R : ℤ) (h : (R : ℚ) ≤ q) : R ≤ round_half_even q := by
  have hfl : R ≤ ⌊q⌋ := Int.le_floor.mpr h
  rcases round_half_even_cases q with ⟨e, _⟩ | ⟨e, _⟩
  · rw [e]; exact hfl
  · rw [e]; omega

theorem round_half_even_near (q : ℚ) : |(round_half_even q : ℚ) - q| ≤ 1 / 2 := by
  have h1 := Int.floor_le q
  have h2 := Int.lt_floor_add_one q
  rcases round_half_even_cases q with ⟨e, hf⟩ | ⟨e, hf⟩
  · rw [e, abs_le]
    constructor <;> linarith
  · rw [e, abs_le]
    push_cast
    constructor <;> linarith

theorem two_zpow_pos (z : ℤ) : (0 : ℚ) < (2 : ℚ) ^ z := zpow_pos (by norm_num) z

theorem binade (q : ℚ) (hq : 0 < q) :
    (2 : ℚ) ^ Int.log 2 q ≤ q ∧ q < (2 : ℚ) ^ (Int.log 2 q + 1) := by
  have h1 := Int.zpow_log_le_self (b := 2) (r := q) (by norm_num) hq
  have h2 := Int.lt_zpow_succ_log_self (b := 2) (by norm_num) q
  constructor
  · exact_mod_cast h1
  · exact_mod_cast h2

theorem log_eq_of_binade (q : ℚ) (e : ℤ) (hlo : (2 : ℚ) ^ e ≤ q) (hhi : q < (2 : ℚ) ^ (e + 1)) :
    Int.log 2 q = e := by
  have hq : 0 < q := lt_of_lt_of_le (two_zpow_pos e) hlo
  have h1 : e ≤ Int.log 2 q :=
    (Int.zpow_le_iff_le_log (b := 2) (by norm_num) hq).mp (by exact_mod_cast hlo)
  have h2 : Int.log 2 q < e + 1 :=
    (Int.lt_zpow_iff_log_lt (b := 2) (by norm_num) hq).mp (by exact_mod_cast hhi)
  omega

theorem round_prec_zero (p : Nat) : round_prec p 0 = 0 := by
  unfold round_prec
  simp [round_half_even]

/-- Scaling a value `m * 2 ^ k` by a unit `2 ^ j` with `j ≤ k` gives an integer. -/
theorem scaled_is_int (m : ℤ) (k j : ℤ) (h : j ≤ k) :
    ((m : ℚ) * (2 : ℚ) ^ k) / (2 : ℚ) ^ j = ((m * 2 ^ (k - j).toNat : ℤ) : ℚ) := by
  have h2 : (2 : ℚ) ≠ 0 := by norm_num
  have hk : k = (k - j) + j := by ring
  have hn : ((k - j).toNat : ℤ) = k - j := Int.toNat_of_nonneg (by omega)
  rw [mul_div_assoc, ← zpow_sub₀ h2]
  push_cast
  rw [← zpow_natCast (2 : ℚ) (k - j).toNat, hn]

theorem round_prec_pos_form (p : Nat) (q : ℚ) (hq : 0 < q) :
    round_prec p q
      = (round_half_even (q / (2 : ℚ) ^ (Int.log 2 q - ((p : ℤ) - 1))) : ℚ)
          * (2 : ℚ) ^ (Int.log 2 q - ((p : ℤ) - 1)) := by
  unfold round_prec ulp_exp
  rw [abs_of_pos hq]

/-- A positive value with a significand below `2 ^ p` lies below `2 ^ (p + k)`. -/
theorem repr_lt (p : Nat) (m : ℕ) (k : ℤ) (hm : m < 2 ^ p) :
    (m : ℚ) * (2 : ℚ) ^ k < (2 : ℚ) ^ ((p : ℤ) + k) := by
  have h2 : (2 : ℚ) ≠ 0 := by norm_num
  rw [zpow_add₀ h2, zpow_natCast]
  have hmq : (m : ℚ) < (2 : ℚ) ^ p := by exact_mod_cast hm
  exact mul_lt_mul_of_pos_right hmq (two_zpow_pos k)

theorem round_prec_le (p : Nat) (q : ℚ) (m : ℕ) (k : ℤ) (hq : 0 ≤ q) (hm : m < 2 ^ p)
    (h : q ≤ (m : ℚ) * (2 : ℚ) ^ k) : round_prec p q ≤ (m : ℚ) * (2 : ℚ) ^ k := by
  rcases eq_or_lt_of_le hq with h0 | hpos
  · rw [← h0, round_prec_zero]
    rw [← h0] at h
    exact h
  · rw [round_prec_pos_form p q hpos]
    obtain ⟨hlo, _⟩ := binade q hpos
    have hu := two_zpow_pos (Int.log 2 q - ((p : ℤ) - 1))
    have hk : Int.log 2 q - ((p : ℤ) - 1) ≤ k := by
      by_contra hcon
      have hlt : (p : ℤ) + k ≤ Int.log 2 q := by omega
      have h1 := repr_lt p m k hm
      have h2 : (2 : ℚ) ^ ((p : ℤ) + k) ≤ (2 : ℚ) ^ Int.log 2 q :=
        zpow_le_zpow_right₀ (by norm_num) hlt
      linarith
    have hint := scaled_is_int (m : ℤ) k _ hk
    have hx : q / (2 : ℚ) ^ (Int.log 2 q - ((p : ℤ) - 1))
        ≤ (((m : ℤ) * 2 ^ (k - (Int.log 2 q - ((p : ℤ) - 1))).toNat : ℤ) : ℚ) := by
      rw [← hint]
      push_cast
      exact div_le_div_of_nonneg_right h (le_of_lt hu)
    have hr := round_half_even_le _ _ hx
    have hr2 : (round_half_even (q / (2 : ℚ) ^ (Int.log 2 q - ((p : ℤ) - 1))) : ℚ)
        ≤ (((m : ℤ) * 2 ^ (k - (Int.log 2 q - ((p : ℤ) - 1))).toNat : ℤ) : ℚ) := by
      exact_mod_cast hr
    have hmul := mul_le_mul_of_nonneg_right hr2 (le_of_lt hu)
    rw [← hint] at hmul
    push_cast at hmul
    rw [div_mul_cancel₀ _ (ne_of_gt hu)] at hmul
    exact hmul

theorem le_round_prec (p : Nat) (q : ℚ) (m : ℕ) (k : ℤ) (hp : 1 ≤ p) (hm : m < 2 ^ p)
    (h : (m : ℚ) * (2 : ℚ) ^ k ≤ q) : (m : ℚ) * (2 : ℚ) ^ k ≤ round_prec p q := by
  have h2 : (2 : ℚ) ≠ 0 := by norm_num
  have hr0 : (0 : ℚ) ≤ (m : ℚ) * (2 : ℚ) ^ k :=
    mul_nonneg (Nat.cast_nonneg m) (le_of_lt (two_zpow_pos k))
  rcases eq_or_lt_of_le (le_trans hr0 h) with h0 | hpos
  · rw [← h0, round_prec_zero]
    rw [← h0] at h
    exact h
  · rw [round_prec_pos_form p q hpos]
    obtain ⟨hlo, _⟩ := binade q hpos
    have hu := two_zpow_pos (Int.log 2 q - ((p : ℤ) - 1))
    by_cases hk : Int.log 2 q - ((p : ℤ) - 1) ≤ k
    · have hint := scaled_is_int (m : ℤ) k _ hk
      have hx : (((m : ℤ) * 2 ^ (k - (Int.log 2 q - ((p : ℤ) - 1))).toNat : ℤ) : ℚ)
          ≤ q / (2 : ℚ) ^ (Int.log 2 q - ((p : ℤ) - 1)) := by
        rw [← hint]
        push_cast
        exact div_le_div_of_nonneg_right h (le_of_lt hu)
      have hr := le_round_half_even _ _ hx
      have hr2 : (((m : ℤ) * 2 ^ (k - (Int.log 2 q - ((p : ℤ) - 1))).toNat : ℤ) : ℚ)
          ≤ (round_half_even (q / (2 : ℚ) ^ (Int.log 2 q - ((p : ℤ) - 1))) : ℚ) := by
        exact_mod_cast hr
      have hmul := mul_le_mul_of_nonneg_right hr2 (le_of_lt hu)
      rw [← hint] at hmul
      push_cast at hmul
      rw [div_mul_cancel₀ _ (ne_of_gt hu)] at hmul
      exact hmul
    · have hlt : (p : ℤ) + k ≤ Int.log 2 q := by omega
      have h1 := repr_lt p m k hm
      have h3 : (2 : ℚ) ^ ((p : ℤ) + k) ≤ (2 : ℚ) ^ Int.log 2 q :=
        zpow_le_zpow_right₀ (by norm_num) hlt
      have hpn : (((p - 1 : ℕ) : ℤ)) = (p : ℤ) - 1 := by omega
      have hscale : (2 : ℚ) ^ Int.log 2 q / (2 : ℚ) ^ (Int.log 2 q - ((p : ℤ) - 1))
          = (((2 : ℤ) ^ (p - 1) : ℤ) : ℚ) := by
        rw [← zpow_sub₀ h2]
        push_cast
        rw [← zpow_natCast (2 : ℚ) (p - 1), hpn]
        congr 1
        ring
      have hx : (((2 : ℤ) ^ (p - 1) : ℤ) : ℚ)
          ≤ q / (2 : ℚ) ^ (Int.log 2 q - ((p : ℤ) - 1)) := by
        rw [← hscale]
        exact div_le_div_of_nonneg_right hlo (le_of_lt hu)
      have hr := le_round_half_even _ _ hx
      have hr2 : (((2 : ℤ) ^ (p - 1) : ℤ) : ℚ)
          ≤ (round_half_even (q / (2 : ℚ) ^ (Int.log 2 q - ((p : ℤ) - 1))) : ℚ) := by
        exact_mod_cast hr
      have hmul := mul_le_mul_of_nonneg_right hr2 (le_of_lt hu)
      rw [← hscale, div_mul_cancel₀ _ (ne_of_gt hu)] at hmul
      linarith

theorem round_prec_nonneg (p : Nat) (q : ℚ) (hp : 1 ≤ p) (hq : 0 ≤ q) : 0 ≤ round_prec p q := by
  have h := le_round_prec p q 0 0 hp (by positivity) (by simpa using hq)
  simpa using h

/-- A value `m * 2 ^ k` whose significand `m` is below `2 ^ p` is its own rounding. -/
theorem round_prec_exact (p : Nat) (m : ℕ) (k : ℤ) (hp : 1 ≤ p) (hm : m < 2 ^ p) :
    round_prec p ((m : ℚ) * (2 : ℚ) ^ k) = (m : ℚ) * (2 : ℚ) ^ k := by
  have hr0 : (0 : ℚ) ≤ (m : ℚ) * (2 : ℚ) ^ k :=
    mul_nonneg (Nat.cast_nonneg m) (le_of_lt (two_zpow_pos k))
  exact le_antisymm (round_prec_le p _ m k hr0 hm le_rfl) (le_round_prec p _ m k hp hm le_rfl)

theorem round_prec_natCast (p : Nat) (n : ℕ) (hp : 1 ≤ p) (hn : n < 2 ^ p) :
    round_prec p (n : ℚ) = n := by
  have h := round_prec_exact p n 0 hp hn
  simpa using h

/-- Evaluation of a rounding: `q` lies in the binade `[2 ^ (k + p - 1), 2 ^ (k + p))` and
nearer than half a unit `2 ^ k` to `m * 2 ^ k`. -/
theorem round_prec_eval (p : Nat) (q : ℚ) (m k : ℤ)
    (hlo : (2 : ℚ) ^ (k + (p : ℤ) - 1) ≤ q) (hhi : q < (2 : ℚ) ^ (k + (p : ℤ)))
    (hnear : |q - (m : ℚ) * (2 : ℚ) ^ k| < (2 : ℚ) ^ k / 2) :
    round_prec p q = (m : ℚ) * (2 : ℚ) ^ k := by
  have hq : 0 < q := lt_of_lt_of_le (two_zpow_pos _) hlo
  have hlog : Int.log 2 q = k + (p : ℤ) - 1 :=
    log_eq_of_binade q _ hlo (by rw [show k + (p : ℤ) - 1 + 1 = k + (p : ℤ) by ring]; exact hhi)
  rw [round_prec_pos_form p q hq, hlog, show k + (p : ℤ) - 1 - ((p : ℤ) - 1) = k by ring]
  have hu := two_zpow_pos k
  have hN := round_half_even_near (q / (2 : ℚ) ^ k)
  have hM : |q / (2 : ℚ) ^ k - (m : ℚ)| < 1 / 2 := by
    have : q / (2 : ℚ) ^ k - (m : ℚ) = (q - (m : ℚ) * (2 : ℚ) ^ k) / (2 : ℚ) ^ k := by
      field_simp
      ring
    rw [this, abs_div, abs_of_pos hu, div_lt_iff₀ hu]
    linarith
  have hNM : |((round_half_even (q / (2 : ℚ) ^ k) : ℚ)) - (m : ℚ)| < 1 := by
    have := abs_sub_le ((round_half_even (q / (2 : ℚ) ^ k) : ℚ)) (q / (2 : ℚ) ^ k) (m : ℚ)
    linarith
  have hZ : |round_half_even (q / (2 : ℚ) ^ k) - m| < 1 := by
    have : ((round_half_even (q / (2 : ℚ) ^ k) - m : ℤ) : ℚ)
        = (round_half_even (q / (2 : ℚ) ^ k) : ℚ) - (m : ℚ) := by push_cast; ring
    have h2 : |((round_half_even (q / (2 : ℚ) ^ k) - m : ℤ) : ℚ)| < 1 := by rw [this]; exact hNM
    exact_mod_cast h2
  have heq : round_half_even (q / (2 : ℚ) ^ k) = m := by
    have := abs_lt.mp hZ
    omega
  rw [heq]

/-- The relative error of a rounding is at most `2 ^ (-p)`. -/
theorem round_prec_error (p : Nat) (q : ℚ) (hq : 0 < q) :
    |round_prec p q - q| ≤ q * (2 : ℚ) ^ (-(p : ℤ)) := by
  have h2 : (2 : ℚ) ≠ 0 := by norm_num
  rw [round_prec_pos_form p q hq]
  obtain ⟨hlo, _⟩ := binade q hq
  have hu := two_zpow_pos (Int.log 2 q - ((p : ℤ) - 1))
  have hN := round_half_even_near (q / (2 : ℚ) ^ (Int.log 2 q - ((p : ℤ) - 1)))
  have hfac : (round_half_even (q / (2 : ℚ) ^ (Int.log 2 q - ((p : ℤ) - 1))) : ℚ)
        * (2 : ℚ) ^ (Int.log 2 q - ((p : ℤ) - 1)) - q
      = ((round_half_even (q / (2 : ℚ) ^ (Int.log 2 q - ((p : ℤ) - 1))) : ℚ)
          - q / (2 : ℚ) ^ (Int.log 2 q - ((p : ℤ) - 1)))
        * (2 : ℚ) ^ (Int.log 2 q - ((p : ℤ) - 1)) := by
    field_simp
  rw [hfac, abs_mul, abs_of_pos hu]
  have hhalf : (2 : ℚ) ^ (Int.log 2 q - ((p : ℤ) - 1)) / 2
      = (2 : ℚ) ^ Int.log 2 q * (2 : ℚ) ^ (-(p : ℤ)) := by
    rw [← zpow_add₀ h2, show Int.log 2 q - ((p : ℤ) - 1) = (Int.log 2 q + -(p : ℤ)) + 1 by ring,
      zpow_add₀ h2 _ 1, zpow_one]
    ring
  have h1 : |(round_half_even (q / (2 : ℚ) ^ (Int.log 2 q - ((p : ℤ) - 1))) : ℚ)
        - q / (2 : ℚ) ^ (Int.log 2 q - ((p : ℤ) - 1))|
        * (2 : ℚ) ^ (Int.log 2 q - ((p : ℤ) - 1))
      ≤ 1 / 2 * (2 : ℚ) ^ (Int.log 2 q - ((p : ℤ) - 1)) :=
    mul_le_mul_of_nonneg_right hN (le_of_lt hu)
  have h3 : (2 : ℚ) ^ Int.log 2 q * (2 : ℚ) ^ (-(p : ℤ)) ≤ q * (2 : ℚ) ^ (-(p : ℤ)) :=
    mul_le_mul_of_nonneg_right hlo (le_of_lt (two_zpow_pos _))
  linarith

/-- Rounding a nonnegative value twice is the same as rounding it once. -/
theorem round_prec_idem (p : Nat) (q : ℚ) (hp : 1 ≤ p) (hq : 0 ≤ q) :
    round_prec p (round_prec p q) = round_prec p q := by
  have h2 : (2 : ℚ) ≠ 0 := by norm_num
  rcases eq_or_lt_of_le hq with h0 | hpos
  · rw [← h0, round_prec_zero, round_prec_zero]
  · obtain ⟨hlo, hhi⟩ := binade q hpos
    have hu := two_zpow_pos (Int.log 2 q - ((p : ℤ) - 1))
    have hform := round_prec_pos_form p q hpos
    have hscale : (2 : ℚ) ^ (Int.log 2 q + 1) / (2 : ℚ) ^ (Int.log 2 q - ((p : ℤ) - 1))
        = (((2 : ℤ) ^ p : ℤ) : ℚ) := by
      rw [← zpow_sub₀ h2]
      push_cast
      rw [← zpow_natCast (2 : ℚ) p]
      congr 1
      ring
    have hx : q / (2 : ℚ) ^ (Int.log 2 q - ((p : ℤ) - 1)) ≤ (((2 : ℤ) ^ p : ℤ) : ℚ) := by
      rw [← hscale]
      exact div_le_div_of_nonneg_right (le_of_lt hhi) (le_of_lt hu)
    have hN1 := round_half_even_le _ _ hx
    have hx0 : (((0 : ℤ)) : ℚ) ≤ q / (2 : ℚ) ^ (Int.log 2 q - ((p : ℤ) - 1)) := by
      push_cast
      positivity
    have hN0 := le_round_half_even _ _ hx0
    have hcast : ((round_half_even (q / (2 : ℚ) ^ (Int.log 2 q - ((p : ℤ) - 1)))).toNat : ℤ)
        = round_half_even (q / (2 : ℚ) ^ (Int.log 2 q - ((p : ℤ) - 1))) :=
      Int.toNat_of_nonneg hN0
    rcases lt_or_eq_of_le hN1 with hlt | heq
    · have hm : (round_half_even (q / (2 : ℚ) ^ (Int.log 2 q - ((p : ℤ) - 1)))).toNat
          < 2 ^ p := by
        have : ((round_half_even (q / (2 : ℚ) ^ (Int.log 2 q - ((p : ℤ) - 1)))).toNat : ℤ)
            < ((2 ^ p : ℕ) : ℤ) := by
          rw [hcast]
          push_cast
          exact hlt
        exact_mod_cast this
      have hex := round_prec_exact p _ (Int.log 2 q - ((p : ℤ) - 1)) hp hm
      have hq2 : (((round_half_even (q / (2 : ℚ) ^ (Int.log 2 q - ((p : ℤ) - 1)))).toNat : ℕ) : ℚ)
          = ((round_half_even (q / (2 : ℚ) ^ (Int.log 2 q - ((p : ℤ) - 1))) : ℤ) : ℚ) := by
        exact_mod_cast congrArg (fun z : ℤ => (z : ℚ)) hcast
      rw [hq2, ← hform] at hex
      exact hex
    · have hval : round_prec p q = ((1 : ℕ) : ℚ) * (2 : ℚ) ^ (Int.log 2 q + 1) := by
        rw [hform, heq, ← hscale, div_mul_cancel₀ _ (ne_of_gt hu)]
        simp
      rw [hval]
      exact round_prec_exact p 1 _ hp (Nat.one_lt_two_pow (by omega))

theorem f32_natCast (n : ℕ) (hn : n < 2 ^ 24) : f32 (n : ℚ) = n :=
  round_prec_natCast 24 n (by norm_num) hn

theorem f64_natCast (n : ℕ) (hn : n < 2 ^ 53) : f64 (n : ℚ) = n :=
  round_prec_natCast 53 n (by norm_num) hn

theorem f32_exact (m : ℕ) (k : ℤ) (hm : m < 2 ^ 24) :
    f32 ((m : ℚ) * (2 : ℚ) ^ k) = (m : ℚ) * (2 : ℚ) ^ k :=
  round_prec_exact 24 m k (by norm_num) hm

theorem f64_exact (m : ℕ) (k : ℤ) (hm : m < 2 ^ 53) :
    f64 ((m : ℚ) * (2 : ℚ) ^ k) = (m : ℚ) * (2 : ℚ) ^ k :=
  round_prec_exact 53 m k (by norm_num) hm

theorem f32_zero : f32 0 = 0 := round_prec_zero 24

theorem f32_one : f32 1 = 1 := by
  have h := f32_natCast 1 (by norm_num)
  simpa using h

theorem f32_two : f32 2 = 2 := by
  have h := f32_natCast 2 (by norm_num)
  simpa using h

theorem f32_four : f32 4 = 4 := by
  have h := f32_natCast 4 (by norm_num)
  simpa using h

theorem f64_one : f64 1 = 1 := by
  have h := f64_natCast 1 (by norm_num)
  simpa using h

theorem f32_nonneg (q : ℚ) (hq : 0 ≤ q) : 0 ≤ f32 q := round_prec_nonneg 24 q (by norm_num) hq

theorem f64_nonneg (q : ℚ) (hq : 0 ≤ q) : 0 ≤ f64 q := round_prec_nonneg 53 q (by norm_num) hq

theorem sincos_max_amplitude_value :
    SINCOS_MAX_AMPLITUDE = 3715469692580659 / 2251799813685248 := by
  unfold SINCOS_MAX_AMPLITUDE f64
  rw [round_prec_eval 53 _ 7430939385161318 (-52) (by norm_num) (by norm_num)
    (by norm_num [abs_lt])]
  norm_num

theorem sincos_max_sq :
    SQ SINCOS_MAX_AMPLITUDE = 6130524992758087 / 2251799813685248 := by
  rw [sincos_max_amplitude_value]
  unfold SQ f64
  rw [round_prec_eval 53 _ 6130524992758087 (-51) (by norm_num) (by norm_num)
    (by norm_num [abs_lt])]
  norm_num

theorem sincos_min_sq : SQ SINCOS_MIN_AMPLITUDE = 1 := by
  unfold SQ SINCOS_MIN_AMPLITUDE
  rw [f64_one, mul_one, f64_one]

theorem abi_angle_exact (c n m : ℕ) (k : ℤ) (hc : c < 2 ^ 24) (hn : n < 2 ^ 24)
    (hm : m < 2 ^ 24) (h : ((c : ℚ) * 360) / (n : ℚ) = (m : ℚ) * (2 : ℚ) ^ k) :
    abi_angle c n = ((c : ℚ) * 360) / (n : ℚ) := by
  have hprod : (c : ℚ) * 360 = ((c * 360 : ℕ) : ℚ) := by push_cast; ring
  unfold abi_angle
  rw [f32_natCast c hc, f32_natCast n hn, hprod, f64_natCast (c * 360) (by omega), ← hprod, h,
    f64_exact m k (lt_trans hm (by norm_num)), f32_exact m k hm]

theorem abi_angle_12288_8192 : abi_angle 12288 8192 = 540 := by
  rw [abi_angle_exact 12288 8192 135 2 (by norm_num) (by norm_num) (by norm_num) (by norm_num)]
  norm_num

theorem abi_angle_1_7 : abi_angle 1 7 = 13481691 / 262144 := by
  have h360 : ((1 : ℕ) : ℚ) * 360 = ((360 : ℕ) : ℚ) := by norm_num
  unfold abi_angle
  rw [f32_natCast 1 (by norm_num), f32_natCast 7 (by norm_num), h360,
    f64_natCast 360 (by norm_num)]
  unfold f64 f32
  rw [round_prec_eval 53 _ 7237927972559726 (-47) (by norm_num) (by norm_num)
    (by norm_num [abs_lt])]
  rw [round_prec_eval 24 _ 13481691 (-18) (by norm_num) (by norm_num) (by norm_num [abs_lt])]
  norm_num

theorem abi_angle_quotient (c n : ℕ) (hc : c < 2 ^ 24) (hn : n < 2 ^ 24) :
    abi_angle c n = f32 (f64 (((c : ℚ) * 360) / (n : ℚ))) := by
  have hprod : (c : ℚ) * 360 = ((c * 360 : ℕ) : ℚ) := by push_cast; ring
  unfold abi_angle
  rw [f32_natCast c hc, f32_natCast n hn, hprod, f64_natCast (c * 360) (by omega)]

theorem abi_angle_error (c n : ℕ) (hc : c < 2 ^ 24) (hn : n < 2 ^ 24) (hn0 : 0 < n) :
    |abi_angle c n - ((c : ℚ) * 360) / (n : ℚ)|
      ≤ ((c : ℚ) * 360) / (n : ℚ) * (2 : ℚ) ^ (-23 : ℤ) := by
  have hnq : (0 : ℚ) < (n : ℚ) := by exact_mod_cast hn0
  rcases Nat.eq_zero_or_pos c with h0 | hc0
  · subst h0
    rw [abi_angle_exact 0 n 0 0 hc hn (by norm_num) (by simp)]
    simp
  · have hcq : (0 : ℚ) < (c : ℚ) := by exact_mod_cast hc0
    have hq : (0 : ℚ) < ((c : ℚ) * 360) / (n : ℚ) := by positivity
    rw [abi_angle_quotient c n hc hn]
    have h1 := round_prec_error 53 _ hq
    have e1 : (2 : ℚ) ^ (-((53 : ℕ) : ℤ)) = 1 / 9007199254740992 := by norm_num
    rw [e1] at h1
    have h1' := abs_le.mp h1
    have hd : (0 : ℚ) < round_prec 53 (((c : ℚ) * 360) / (n : ℚ)) := by linarith [h1'.1]
    have h2 := round_prec_error 24 _ hd
    have e2 : (2 : ℚ) ^ (-((24 : ℕ) : ℤ)) = 1 / 16777216 := by norm_num
    rw [e2] at h2
    have h2' := abs_le.mp h2
    have e3 : (2 : ℚ) ^ (-23 : ℤ) = 1 / 8388608 := by norm_num
    rw [e3, abs_le]
    unfold f32 f64
    constructor <;> linarith [h1'.1, h1'.2, h2'.1, h2'.2]

theorem xor_allOnes_testBit_zero (y : Nat) : ((y ^^^ 0xFFFFFFFF) &&& 1 != 0) = !(y.testBit 0) := by
  have h : (y ^^^ 0xFFFFFFFF).testBit 0 = !(y.testBit 0) := by
    rw [Nat.testBit_xor]
    cases y.testBit 0 <;> decide
  rw [← h, Nat.and_one_is_mod, Nat.testBit_zero]
  rcases Nat.mod_two_eq_zero_or_one (y ^^^ 0xFFFFFFFF) with h0 | h0 <;> simp [h0]

theorem xor_toNat (a b : Bool) : (xor a b).toNat = (a.toNat + b.toNat) % 2 := by
  cases a <;> cases b <;> rfl

theorem popcount16_eq (x : Nat) :
    popcount16 x = (x.testBit 0).toNat + (x.testBit 1).toNat + (x.testBit 2).toNat
      + (x.testBit 3).toNat + (x.testBit 4).toNat + (x.testBit 5).toNat + (x.testBit 6).toNat
      + (x.testBit 7).toNat + (x.testBit 8).toNat + (x.testBit 9).toNat + (x.testBit 10).toNat
      + (x.testBit 11).toNat + (x.testBit 12).toNat + (x.testBit 13).toNat
      + (x.testBit 14).toNat + (x.testBit 15).toNat := by
  simp only [popcount16, List.range_succ, List.range_zero, List.nil_append, List.cons_append,
    List.map_cons, List.map_nil, List.sum_cons, List.sum_nil]
  omega

theorem spi_check_parity_toNat (x : Nat) :
    (!spi_check_parity x).toNat = popcount16 x % 2 := by
  unfold spi_check_parity
  simp only []
  rw [xor_allOnes_testBit_zero, Bool.not_not]
  simp only [Nat.testBit_xor, Nat.testBit_shiftRight, Nat.reduceAdd, xor_toNat, popcount16_eq]
  omega

theorem spi_check_parity_iff_even (x : Nat) :
    spi_check_parity x = true ↔ popcount16 x % 2 = 0 := by
  rw [← spi_check_parity_toNat]
  cases spi_check_parity x <;> simp

theorem spi_check_parity_xor_chain (x : Nat) :
    spi_check_parity x = !(xor (x.testBit 0) (xor (x.testBit 8) (xor (x.testBit 4)
      (xor (x.testBit 12) (xor (x.testBit 2) (xor (x.testBit 10) (xor (x.testBit 6)
      (xor (x.testBit 14) (xor (x.testBit 1) (xor (x.testBit 9) (xor (x.testBit 5)
      (xor (x.testBit 13) (xor (x.testBit 3) (xor (x.testBit 11) (xor (x.testBit 7)
      (x.testBit 15)))))))))))))))) := by
  unfold spi_check_parity
  simp only []
  rw [xor_allOnes_testBit_zero]
  simp only [Nat.testBit_xor, Nat.testBit_shiftRight, Nat.reduceAdd, Bool.xor_assoc]

theorem spi_check_parity_flip (x i : Nat) (hi : i < 16) :
    spi_check_parity (x ^^^ (1 <<< i)) = !spi_check_parity x := by
  have hy : ∀ j, (x ^^^ (1 <<< i)).testBit j = xor (x.testBit j) (decide (i = j)) := by
    intro j
    rw [Nat.testBit_xor, Nat.one_shiftLeft, Nat.testBit_two_pow]
  rw [spi_check_parity_xor_chain, spi_check_parity_xor_chain x]
  simp only [hy]
  interval_cases i <;>
    simp only [Nat.reduceEqDiff, decide_False, decide_True, Bool.xor_false, Bool.xor_true,
      OfNat.ofNat_ne_zero, OfNat.zero_ne_ofNat, OfNat.ofNat_ne_one, OfNat.one_ne_ofNat,
      zero_ne_one, one_ne_zero, Bool.xor_not, Bool.not_xor, Bool.not_not]

theorem shl_one_mod_testBit (r m : Nat) (hm : m < 16) :
    ((r <<< 1) % 65536).testBit m = (decide (m ≥ 1) && r.testBit (m - 1)) := by
  show ((r <<< 1) % 2 ^ 16).testBit m = _
  rw [Nat.testBit_mod_two_pow, Nat.testBit_shiftLeft]
  simp [hm]

theorem shift_in_testBit (r m : Nat) (c : Prop) [Decidable c] (hm : m < 16) :
    (if c then ((r <<< 1) % 65536) ||| 1 else (r <<< 1) % 65536).testBit m
      = if m = 0 then decide c else r.testBit (m - 1) := by
  have hs := shl_one_mod_testBit r m hm
  rcases Nat.eq_zero_or_pos m with h0 | hpos
  · subst h0
    by_cases hc : c
    · simp only [hc, if_true, Nat.testBit_or, hs, Nat.testBit_one_zero]
      simp
    · simp only [hc, if_false, hs]
      simp
  · have hne : m ≠ 0 := by omega
    have h1 : Nat.testBit 1 m = false := by
      cases hb : Nat.testBit 1 m
      · rfl
      · exact absurd (Nat.testBit_one_eq_true_iff_self_eq_zero.mp hb) hne
    have hge : m ≥ 1 := hpos
    by_cases hc : c
    · simp only [hc, if_true, Nat.testBit_or, hs, h1, hne, if_false]
      simp [hge]
    · simp only [hc, if_false, hs, hne]
      simp [hge]

theorem spi_transfer_bits_testBit (miso : Nat → Bool) :
    ∀ (n k r j : Nat), j < 16 →
      (spi_transfer_bits miso n k r).testBit j
        = if j < n then decide (pulse_samples miso (k + 5 * (n - 1 - j)) > 2)
          else r.testBit (j - n) := by
  intro n
  induction n with
  | zero => intro k r j _; rw [spi_transfer_bits]; simp
  | succ n ih =>
    intro k r j hj
    rw [spi_transfer_bits, ih _ _ j hj]
    by_cases h1 : j < n
    · have h2 : j < n + 1 := by omega
      have h3 : k + 5 + 5 * (n - 1 - j) = k + 5 * (n + 1 - 1 - j) := by omega
      simp [h1, h2, h3]
    · simp only [h1, if_false]
      rw [shift_in_testBit _ _ _ (by omega)]
      by_cases h4 : j = n
      · subst h4
        simp [pulse_samples]
      · have h5 : ¬ j < n + 1 := by omega
        have h6 : j - n ≠ 0 := by omega
        have h7 : j - n - 1 = j - (n + 1) := by omega
        simp [h5, h6, h7]

theorem spi_transfer_bits_lt (miso : Nat → Bool) :
    ∀ (n k r : Nat), r < 65536 → spi_transfer_bits miso n k r < 65536 := by
  intro n
  induction n with
  | zero => intro k r hr; rw [spi_transfer_bits]; exact hr
  | succ n ih =>
    intro k r _
    rw [spi_transfer_bits]
    apply ih
    have hA : (r <<< 1) % 65536 < 2 ^ 16 := Nat.mod_lt _ (by norm_num)
    split
    · exact Nat.or_lt_two_pow hA (by norm_num)
    · exact hA

theorem and_two_pow_eq (w i : Nat) : w &&& 2 ^ i = if w.testBit i then 2 ^ i else 0 := by
  apply Nat.eq_of_testBit_eq
  intro j
  rw [Nat.testBit_and, Nat.testBit_two_pow]
  by_cases h : i = j
  · subst h
    cases hb : w.testBit i <;> simp [Nat.testBit_two_pow]
  · cases hb : w.testBit i <;> simp [h, Nat.testBit_two_pow]

theorem and_two_pow_ne_zero (w i : Nat) : (w &&& 2 ^ i != 0) = w.testBit i := by
  rw [and_two_pow_eq]
  cases w.testBit i <;> simp

theorem resolver_payload_eq (w : Nat) (hw : w < 65536) :
    ((w &&& 0xFFF0) >>> 4) &&& 0x0FFF = w >>> 4 := by
  apply Nat.eq_of_testBit_eq
  intro j
  have hF0 : (0xFFF0 : Nat) = (2 ^ 12 - 1) <<< 4 := by decide
  have hFF : (0x0FFF : Nat) = 2 ^ 12 - 1 := by decide
  rw [Nat.testBit_and, Nat.testBit_shiftRight, Nat.testBit_and, Nat.testBit_shiftRight, hF0,
    Nat.testBit_shiftLeft, hFF, Nat.testBit_two_pow_sub_one, Nat.testBit_two_pow_sub_one]
  by_cases hj : j < 12
  · simp [hj]
  · have hlt : w < 2 ^ (4 + j) :=
      lt_of_lt_of_le hw (by
        have : (65536 : Nat) = 2 ^ 16 := by norm_num
        rw [this]
        exact Nat.pow_le_pow_right (by norm_num) (by omega))
    simp [hj, Nat.testBit_lt_two_pow hlt]

theorem received_word_eq (miso : Nat → Bool) :
    received_word miso = spi_transfer_bits miso 16 0 0 := by
  rfl

theorem received_word_lt (miso : Nat → Bool) : received_word miso < 65536 := by
  rw [received_word_eq]
  exact spi_transfer_bits_lt miso 16 0 0 (by norm_num)

theorem tim_isr_as5047p_mode (miso : Nat → Bool) (s : EncoderState) :
    (encoder_tim_isr_as5047p miso s).mode = s.mode := by
  unfold encoder_tim_isr_as5047p
  simp only []
  split <;> rfl

theorem tim_isr_of_as5047p (miso : Nat → Bool) (s : EncoderState)
    (hmode : s.mode = ENCODER_MODE_AS5047P_SPI) :
    encoder_tim_isr miso s = encoder_tim_isr_as5047p miso s := by
  unfold encoder_tim_isr
  simp only [hmode, if_true]
  rw [if_neg]
  rw [tim_isr_as5047p_mode, hmode]
  decide

theorem tim_isr_of_ad2s1205 (miso : Nat → Bool) (s : EncoderState)
    (hmode : s.mode = RESOLVER_MODE_AD2S1205) :
    encoder_tim_isr miso s = encoder_tim_isr_ad2s1205 miso s := by
  unfold encoder_tim_isr
  have h : ¬ (s.mode = ENCODER_MODE_AS5047P_SPI) := by rw [hmode]; decide
  rw [if_neg h, if_pos hmode]

theorem tim_isr_as5047p_accept (miso : Nat → Bool) (s : EncoderState)
    (hp : spi_check_parity (received_word miso) = true) (hne : received_word miso ≠ 0xFFFF) :
    encoder_tim_isr_as5047p miso s =
      { s with
        spi_val := received_word miso
        last_enc_angle := (((received_word miso &&& 0x3FFF : Nat) : ℚ) * 360) / 16384
        spi_error_rate := UTILS_LP_FAST s.spi_error_rate 0 (1 / AS5047_SAMPLE_RATE_HZ) } := by
  unfold encoder_tim_isr_as5047p
  simp only []
  rw [if_pos]
  simp [hp, hne]

theorem tim_isr_as5047p_reject (miso : Nat → Bool) (s : EncoderState)
    (h : spi_check_parity (received_word miso) = false ∨ received_word miso = 0xFFFF) :
    encoder_tim_isr_as5047p miso s =
      { s with
        spi_val := received_word miso
        spi_error_cnt := (s.spi_error_cnt + 1) % 2 ^ 32
        spi_error_rate := UTILS_LP_FAST s.spi_error_rate 1 (1 / AS5047_SAMPLE_RATE_HZ) } := by
  unfold encoder_tim_isr_as5047p
  simp only []
  rw [if_neg]
  rcases h with h | h <;> simp [h]

theorem tim_isr_ad2s1205_eq (miso : Nat → Bool) (s : EncoderState) :
    encoder_tim_isr_ad2s1205 miso s =
      if (received_word miso).testBit 3 = true ∧ (received_word miso).testBit 2 = true
          ∧ (received_word miso).testBit 1 = true then
        { s with last_enc_angle := (((received_word miso >>> 4 : Nat) : ℚ) * 360) / 4096 }
      else s := by
  unfold encoder_tim_isr_ad2s1205
  simp only []
  rw [resolver_payload_eq _ (received_word_lt miso)]
  have h3 := and_two_pow_ne_zero (received_word miso) 3
  have h2 := and_two_pow_ne_zero (received_word miso) 2
  have h1 := and_two_pow_ne_zero (received_word miso) 1
  norm_num at h3 h2 h1
  simp only [h3, h2, h1, Bool.and_eq_true, and_assoc]

theorem toNat_le_one (b : Bool) : b.toNat ≤ 1 := by
  cases b <;> decide

theorem palReadPad_eq_toNat (b : Bool) : palReadPad b = b.toNat := by
  cases b <;> rfl

theorem ones_in_pulse_eq (miso : Nat → Bool) (i : Nat) :
    ones_in_pulse miso i = (miso (5 * i + 0)).toNat + (miso (5 * i + 1)).toNat
      + (miso (5 * i + 2)).toNat + (miso (5 * i + 3)).toNat + (miso (5 * i + 4)).toNat := by
  unfold ones_in_pulse
  simp only [List.range_succ, List.range_zero, List.nil_append, List.cons_append,
    List.countP_cons, List.countP_nil]
  cases miso (5 * i + 0) <;> cases miso (5 * i + 1) <;> cases miso (5 * i + 2) <;>
    cases miso (5 * i + 3) <;> cases miso (5 * i + 4) <;> rfl

theorem pulse_samples_eq (miso : Nat → Bool) (i : Nat) :
    pulse_samples miso (5 * i) = ones_in_pulse miso i := by
  rw [ones_in_pulse_eq]
  simp only [pulse_samples, palReadPad_eq_toNat, Nat.add_zero]

theorem received_word_testBit (miso : Nat → Bool) (i : Nat) (hi : i < 16) :
    (received_word miso).testBit (15 - i) = decide (3 ≤ ones_in_pulse miso i) := by
  rw [received_word_eq, spi_transfer_bits_testBit miso 16 0 0 (15 - i) (by omega)]
  have h1 : 15 - i < 16 := by omega
  have h2 : 0 + 5 * (16 - 1 - (15 - i)) = 5 * i := by omega
  rw [if_pos h1, h2, pulse_samples_eq]
  apply decide_eq_decide.mpr
  omega

theorem majority_of_three (m : Nat → Bool) (i a b c : Nat) (v : Bool)
    (hab : a < b) (hbc : b < c) (hc : c < 5)
    (ha : m (5 * i + a) = v) (hb : m (5 * i + b) = v) (hcv : m (5 * i + c) = v) :
    3 ≤ ones_in_pulse m i ↔ v = true := by
  have b0 := toNat_le_one (m (5 * i + 0))
  have b1 := toNat_le_one (m (5 * i + 1))
  have b2 := toNat_le_one (m (5 * i + 2))
  have b3 := toNat_le_one (m (5 * i + 3))
  have b4 := toNat_le_one (m (5 * i + 4))
  rw [ones_in_pulse_eq]
  interval_cases c <;> interval_cases b <;> interval_cases a
  all_goals
    rw [ha, hb, hcv]
    cases v
    · simp only [Bool.toNat_false, Bool.false_eq_true, iff_false]
      omega
    · simp only [Bool.toNat_true, iff_true]
      omega

theorem received_word_congr (miso miso2 : Nat → Bool)
    (h : ∀ i, i < 16 → three_agree miso miso2 i) :
    received_word miso2 = received_word miso := by
  apply Nat.eq_of_testBit_eq
  intro j
  by_cases hj : j < 16
  · have hi : 15 - j < 16 := by omega
    have hjj : 15 - (15 - j) = j := by omega
    have e1 := received_word_testBit miso (15 - j) hi
    have e2 := received_word_testBit miso2 (15 - j) hi
    rw [hjj] at e1 e2
    rw [e1, e2]
    obtain ⟨a, _, b, _, c, hc, hab, hbc, h1, h2, h3, h4, h5⟩ := h (15 - j) hi
    have m1 := majority_of_three miso (15 - j) a b c (miso (5 * (15 - j) + a)) hab hbc hc
      rfl (h1.symm) (by rw [← h2, ← h1])
    have m2 := majority_of_three miso2 (15 - j) a b c (miso (5 * (15 - j) + a)) hab hbc hc
      h3 (by rw [h4, ← h1]) (by rw [h5, ← h2, ← h1])
    apply decide_eq_decide.mpr
    rw [m1, m2]
  · have hge : (65536 : Nat) ≤ 2 ^ j := by
      have : (65536 : Nat) = 2 ^ 16 := by norm_num
      rw [this]
      exact Nat.pow_le_pow_right (by norm_num) (by omega)
    rw [Nat.testBit_lt_two_pow (lt_of_lt_of_le (received_word_lt miso2) hge),
      Nat.testBit_lt_two_pow (lt_of_lt_of_le (received_word_lt miso) hge)]

theorem spi_transfer_one (miso : Nat → Bool) : spi_transfer miso 1 = [received_word miso] := by
  rfl

theorem read_deg_abi (p : HwConfig) (sv cv : ℚ) (s : EncoderState)
    (hmode : s.mode = ENCODER_MODE_ABI) :
    encoder_read_deg p sv cv s
      = (abi_angle s.tim_cnt s.enc_counts,
          { s with angle := abi_angle s.tim_cnt s.enc_counts }) := by
  unfold encoder_read_deg
  simp only [hmode]

theorem read_deg_abi_fst (p : HwConfig) (sv cv : ℚ) (s : EncoderState)
    (hmode : s.mode = ENCODER_MODE_ABI) :
    (encoder_read_deg p sv cv s).1 = abi_angle s.tim_cnt s.enc_counts := by
  rw [read_deg_abi p sv cv s hmode]

theorem read_deg_sincos (p : HwConfig) (sv cv : ℚ) (s : EncoderState)
    (hmode : s.mode = ENCODER_MODE_SINCOS) (hhw : p.HW_HAS_SIN_COS_ENCODER = true) :
    encoder_read_deg p sv cv s
      = ((encoder_read_deg_sincos p sv cv s).angle, encoder_read_deg_sincos p sv cv s) := by
  unfold encoder_read_deg
  simp only [hmode, hhw, if_true]

theorem read_deg_sincos_above (p : HwConfig) (sv cv : ℚ) (s : EncoderState)
    (h : sincos_module s sv cv > SQ SINCOS_MAX_AMPLITUDE) :
    encoder_read_deg_sincos p sv cv s =
      { s with
        sincos_signal_above_max_error_cnt := (s.sincos_signal_above_max_error_cnt + 1) % 2 ^ 32
        sincos_signal_above_max_error_rate :=
          UTILS_LP_FAST s.sincos_signal_above_max_error_rate 1 (1 / SINCOS_SAMPLE_RATE_HZ)
        angle := s.last_enc_angle } := by
  unfold encoder_read_deg_sincos
  exact if_pos h

theorem read_deg_sincos_below (p : HwConfig) (sv cv : ℚ) (s : EncoderState)
    (h1 : ¬ sincos_module s sv cv > SQ SINCOS_MAX_AMPLITUDE)
    (h2 : sincos_module s sv cv < SQ SINCOS_MIN_AMPLITUDE) :
    encoder_read_deg_sincos p sv cv s =
      { s with
        sincos_signal_below_min_error_cnt := (s.sincos_signal_below_min_error_cnt + 1) % 2 ^ 32
        sincos_signal_low_error_rate :=
          UTILS_LP_FAST s.sincos_signal_low_error_rate 1 (1 / SINCOS_SAMPLE_RATE_HZ)
        angle := s.last_enc_angle } := by
  unfold encoder_read_deg_sincos
  exact (if_neg h1).trans (if_pos h2)

theorem read_deg_sincos_valid (p : HwConfig) (sv cv : ℚ) (s : EncoderState)
    (h1 : ¬ sincos_module s sv cv > SQ SINCOS_MAX_AMPLITUDE)
    (h2 : ¬ sincos_module s sv cv < SQ SINCOS_MIN_AMPLITUDE) :
    encoder_read_deg_sincos p sv cv s =
      { s with
        sincos_signal_above_max_error_rate :=
          UTILS_LP_FAST s.sincos_signal_above_max_error_rate 0 (1 / SINCOS_SAMPLE_RATE_HZ)
        sincos_signal_low_error_rate :=
          UTILS_LP_FAST s.sincos_signal_low_error_rate 0 (1 / SINCOS_SAMPLE_RATE_HZ)
        angle := UTILS_LP_FAST s.angle
          (p.atan2_deg (calibrated_sin s sv) (calibrated_cos s cv)) s.sincos_filter_constant
        last_enc_angle := UTILS_LP_FAST s.angle
          (p.atan2_deg (calibrated_sin s sv) (calibrated_cos s cv)) s.sincos_filter_constant } := by
  unfold encoder_read_deg_sincos
  exact (if_neg h1).trans (if_neg h2)

theorem sq_min_lt_sq_max : SQ SINCOS_MIN_AMPLITUDE < SQ SINCOS_MAX_AMPLITUDE := by
  rw [sincos_min_sq, sincos_max_sq]
  norm_num

theorem f32_sq_max_ne : f32 (SQ SINCOS_MAX_AMPLITUDE) ≠ SQ SINCOS_MAX_AMPLITUDE := by
  rw [sincos_max_sq]
  unfold f32
  rw [round_prec_eval 24 _ 11418993 (-22) (by norm_num) (by norm_num) (by norm_num [abs_lt])]
  norm_num

/-- No binary32 `module` equals the `double` threshold `SQ(SINCOS_MAX_AMPLITUDE)`: the
boundary of the above-maximum test is not a value the code can compute. -/
theorem sincos_module_ne_sq_max (s : EncoderState) (sv cv : ℚ) :
    sincos_module s sv cv ≠ SQ SINCOS_MAX_AMPLITUDE := by
  intro h
  have hsq : ∀ x : ℚ, 0 ≤ SQ_float x := fun x => f32_nonneg _ (mul_self_nonneg x)
  have hsum : 0 ≤ SQ_float (calibrated_sin s sv) + SQ_float (calibrated_cos s cv) :=
    add_nonneg (hsq _) (hsq _)
  have hidem := round_prec_idem 24 _ (by norm_num) hsum
  have hm : sincos_module s sv cv
      = round_prec 24 (SQ_float (calibrated_sin s sv) + SQ_float (calibrated_cos s cv)) := rfl
  rw [← hm, h] at hidem
  exact f32_sq_max_ne hidem

theorem lp_fast_toward_zero (r : ℚ) :
    UTILS_LP_FAST r 0 (1 / SINCOS_SAMPLE_RATE_HZ) = r + (0 - r) / 20000 := by
  simp only [UTILS_LP_FAST, SINCOS_SAMPLE_RATE_HZ]
  ring

theorem sincos_unit_calibrated (v : ℚ) (hv : f32 v = v) :
    calibrated_sin sincos_unit_state v = v ∧ calibrated_cos sincos_unit_state v = v := by
  have hs : calibrated_sin sincos_unit_state v = f32 (f32 (v * 1) - 0) := rfl
  have hc : calibrated_cos sincos_unit_state v = f32 (f32 (v * 1) - 0) := rfl
  rw [hs, hc, mul_one, sub_zero, hv, hv]
  exact ⟨rfl, rfl⟩

theorem sincos_unit_module (sv cv : ℚ) (hs : f32 sv = sv) (hc : f32 cv = cv) :
    sincos_module sincos_unit_state sv cv = f32 (f32 (sv * sv) + f32 (cv * cv)) := by
  unfold sincos_module SQ_float
  rw [(sincos_unit_calibrated sv hs).1, (sincos_unit_calibrated cv hc).2]

theorem sincos_unit_module_one_zero : sincos_module sincos_unit_state 1 0 = 1 := by
  rw [sincos_unit_module 1 0 f32_one f32_zero]
  norm_num [f32_one, f32_zero]

theorem sincos_unit_module_two_zero : sincos_module sincos_unit_state 2 0 = 4 := by
  rw [sincos_unit_module 2 0 f32_two f32_zero]
  norm_num [f32_four, f32_zero]

theorem sincos_unit_valid_read (sv cv : ℚ) (hs : f32 sv = sv) (hc : f32 cv = cv)
    (h1 : ¬ sincos_module sincos_unit_state sv cv > SQ SINCOS_MAX_AMPLITUDE)
    (h2 : ¬ sincos_module sincos_unit_state sv cv < SQ SINCOS_MIN_AMPLITUDE) :
    encoder_read_deg hw_sincos sv cv sincos_unit_state
      = ((hw_sincos.atan2_deg sv cv) * (1 / 2),
          { sincos_unit_state with
            angle := (hw_sincos.atan2_deg sv cv) * (1 / 2)
            last_enc_angle := (hw_sincos.atan2_deg sv cv) * (1 / 2) }) := by
  rw [read_deg_sincos hw_sincos sv cv sincos_unit_state rfl rfl,
    read_deg_sincos_valid hw_sincos sv cv sincos_unit_state h1 h2,
    (sincos_unit_calibrated sv hs).1, (sincos_unit_calibrated cv hc).2]
  simp [sincos_unit_state, encoder_init_sincos, startup, UTILS_LP_FAST]

/-! ## The claims -/

/-- C1: in absolute-SPI mode a received word with an even number of set bits that is not
`0xFFFF` sets the last-known angle to `(w & 0x3FFF) * 360 / 16384`, is recorded as the raw
word `spi_val`, and leaves `spi_error_cnt` unchanged. -/
theorem C1_as5047p_valid_frame (miso : Nat → Bool) (s : EncoderState) (w : Nat)
    (hmode : s.mode = ENCODER_MODE_AS5047P_SPI)
    (hrecv : received_word miso = w)
    (heven : Even (popcount16 w))
    (hne : w ≠ 0xFFFF) :
    (encoder_tim_isr miso s).last_enc_angle = (((w &&& 0x3FFF : Nat) : ℚ) * 360) / 16384
      ∧ (encoder_tim_isr miso s).spi_val = w
      ∧ (encoder_tim_isr miso s).spi_error_cnt = s.spi_error_cnt := by
  subst hrecv
  have hp : spi_check_parity (received_word miso) = true :=
    (spi_check_parity_iff_even _).mpr (Nat.even_iff.mp heven)
  rw [tim_isr_of_as5047p miso s hmode, tim_isr_as5047p_accept miso s hp hne]
  exact ⟨rfl, rfl, rfl⟩

/-- Witness for C1: the word `0x8001` (payload 1) received after `encoder_init_as5047p_spi`
gives the angle `360 / 16384`. -/
theorem C1_as5047p_valid_frame_witness :
    received_word (miso_of_word 0x8001) = 0x8001
      ∧ Even (popcount16 0x8001)
      ∧ 0x8001 &&& 0x3FFF = 1
      ∧ (encoder_tim_isr (miso_of_word 0x8001) (encoder_init_as5047p_spi startup)).last_enc_angle
          = (((0x8001 &&& 0x3FFF : Nat) : ℚ) * 360) / 16384
      ∧ (encoder_tim_isr (miso_of_word 0x8001) (encoder_init_as5047p_spi startup)).spi_val
          = 0x8001
      ∧ (encoder_tim_isr (miso_of_word 0x8001) (encoder_init_as5047p_spi startup)).spi_error_cnt
          = 0 :=
  ⟨by decide, by decide, by decide,
    C1_as5047p_valid_frame (miso_of_word 0x8001) (encoder_init_as5047p_spi startup) 0x8001
      rfl (by decide) (by decide) (by decide)⟩

/-- C2: in absolute-SPI mode a received word with an odd number of set bits, or the
all-ones word `0xFFFF` (which passes `spi_check_parity`), is rejected: `spi_error_cnt`
goes up by one modulo `2^32`, `spi_error_rate` becomes `rate + (1 - rate) / 20000`, and the
last-known angle is unchanged. -/
theorem C2_as5047p_rejected_frame (miso : Nat → Bool) (s : EncoderState) (w : Nat)
    (hmode : s.mode = ENCODER_MODE_AS5047P_SPI)
    (hrecv : received_word miso = w)
    (hbad : ¬ Even (popcount16 w) ∨ w = 0xFFFF) :
    spi_check_parity 0xFFFF = true
      ∧ (encoder_tim_isr miso s).spi_error_cnt = (s.spi_error_cnt + 1) % 2 ^ 32
      ∧ (encoder_tim_isr miso s).spi_error_rate
          = s.spi_error_rate + (1 - s.spi_error_rate) / 20000
      ∧ (encoder_tim_isr miso s).last_enc_angle = s.last_enc_angle := by
  subst hrecv
  have h : spi_check_parity (received_word miso) = false ∨ received_word miso = 0xFFFF := by
    rcases hbad with h | h
    · left
      cases hp : spi_check_parity (received_word miso)
      · rfl
      · exact absurd (Nat.even_iff.mpr ((spi_check_parity_iff_even _).mp hp)) h
    · exact Or.inr h
  rw [tim_isr_of_as5047p miso s hmode, tim_isr_as5047p_reject miso s h]
  refine ⟨by decide, rfl, ?_, rfl⟩
  simp only [UTILS_LP_FAST, AS5047_SAMPLE_RATE_HZ]
  ring

/-- Witness for C2: the all-ones word received after `encoder_init_as5047p_spi`. -/
theorem C2_as5047p_rejected_frame_witness :
    received_word (miso_of_word 0xFFFF) = 0xFFFF
      ∧ spi_check_parity 0xFFFF = true
      ∧ (encoder_tim_isr (miso_of_word 0xFFFF) (encoder_init_as5047p_spi startup)).spi_error_cnt
          = (0 + 1) % 2 ^ 32
      ∧ (encoder_tim_isr (miso_of_word 0xFFFF) (encoder_init_as5047p_spi startup)).spi_error_rate
          = 0 + (1 - 0) / 20000
      ∧ (encoder_tim_isr (miso_of_word 0xFFFF)
          (encoder_init_as5047p_spi startup)).last_enc_angle = 0 :=
  ⟨by decide,
    C2_as5047p_rejected_frame (miso_of_word 0xFFFF) (encoder_init_as5047p_spi startup) 0xFFFF
      rfl (by decide) (Or.inr rfl)⟩

/-- C3: for every 16-bit word `x`, `spi_check_parity x` is true exactly when the number of
1 bits of `x` is even. -/
theorem C3_spi_check_parity_even (x : Nat) (_hx : x < 65536) :
    spi_check_parity x = true ↔ Even (popcount16 x) := by
  rw [Nat.even_iff]
  exact spi_check_parity_iff_even x

/-- Witness for C3: the word `0x8001` has two set bits and passes the check. -/
theorem C3_spi_check_parity_even_witness :
    0x8001 < 65536 ∧ (spi_check_parity 0x8001 = true ↔ Even (popcount16 0x8001)) :=
  ⟨by decide, C3_spi_check_parity_even 0x8001 (by decide)⟩

/-- C4: for every 16-bit word `x` and bit position `i < 16`, flipping bit `i` negates
`spi_check_parity`; the corrupted word is still a 16-bit word, and a parity-valid frame
becomes a parity error. -/
theorem C4_spi_check_parity_single_bit_flip (x i : Nat) (hx : x < 65536) (hi : i < 16) :
    spi_check_parity (x ^^^ (1 <<< i)) = (!spi_check_parity x)
      ∧ x ^^^ (1 <<< i) < 65536
      ∧ (spi_check_parity x = true → spi_check_parity (x ^^^ (1 <<< i)) = false) := by
  have hflip := spi_check_parity_flip x i hi
  refine ⟨hflip, ?_, ?_⟩
  · have h16 : (65536 : Nat) = 2 ^ 16 := by norm_num
    rw [h16] at hx ⊢
    apply Nat.xor_lt_two_pow hx
    rw [Nat.one_shiftLeft]
    exact Nat.pow_lt_pow_right (by norm_num) hi
  · intro h
    rw [hflip, h]
    rfl

/-- Witness for C4: flipping bit 0 of the valid frame `0x8001`. -/
theorem C4_spi_check_parity_single_bit_flip_witness :
    spi_check_parity 0x8001 = true
      ∧ spi_check_parity (0x8001 ^^^ (1 <<< 0)) = (!spi_check_parity 0x8001)
      ∧ 0x8001 ^^^ (1 <<< 0) < 65536
      ∧ (spi_check_parity 0x8001 = true → spi_check_parity (0x8001 ^^^ (1 <<< 0)) = false) :=
  ⟨by decide, C4_spi_check_parity_single_bit_flip 0x8001 0 (by decide) (by decide)⟩

/-- C5: in resolver mode, when the status bits 3, 2 and 1 of the received word `w` are all
set the last-known angle becomes `(w >> 4) * 360 / 4096` with `w >> 4` a 12-bit value, and
otherwise the driver state is unchanged; `spi_error_cnt` and `spi_error_rate` are not
modified in either case. -/
theorem C5_ad2s1205_frame (miso : Nat → Bool) (s : EncoderState) (w : Nat)
    (hmode : s.mode = RESOLVER_MODE_AD2S1205)
    (hrecv : received_word miso = w) :
    (w.testBit 3 = true ∧ w.testBit 2 = true ∧ w.testBit 1 = true →
        encoder_tim_isr miso s
          = { s with last_enc_angle := (((w >>> 4 : Nat) : ℚ) * 360) / 4096 })
      ∧ (¬ (w.testBit 3 = true ∧ w.testBit 2 = true ∧ w.testBit 1 = true) →
        encoder_tim_isr miso s = s)
      ∧ w >>> 4 < 4096
      ∧ (encoder_tim_isr miso s).spi_error_cnt = s.spi_error_cnt
      ∧ (encoder_tim_isr miso s).spi_error_rate = s.spi_error_rate := by
  subst hrecv
  rw [tim_isr_of_ad2s1205 miso s hmode, tim_isr_ad2s1205_eq]
  have hlt := received_word_lt miso
  refine ⟨fun h => by rw [if_pos h], fun h => by rw [if_neg h], ?_, ?_, ?_⟩
  · rw [Nat.shiftRight_eq_div_pow]
    omega
  · split <;> rfl
  · split <;> rfl

/-- Witness for C5: the reply `0xABCE` (status bits set, position field `0xABC`) received
after `encoder_init_ad2s1205_spi`. -/
theorem C5_ad2s1205_frame_witness :
    received_word (miso_of_word 0xABCE) = 0xABCE
      ∧ (encoder_tim_isr (miso_of_word 0xABCE) (encoder_init_ad2s1205_spi startup)).last_enc_angle
          = (((0xABCE >>> 4 : Nat) : ℚ) * 360) / 4096 :=
  ⟨by decide,
    congrArg EncoderState.last_enc_angle
      ((C5_ad2s1205_frame (miso_of_word 0xABCE) (encoder_init_ad2s1205_spi startup) 0xABCE
        rfl (by decide)).1 (by decide))⟩

/-- C6: bit `15 - i` of the word received by a one-word `spi_transfer` is 1 exactly when at
least 3 of the 5 samples of clock pulse `i` are high; hence a second run of samples that
keeps, in every pulse, three agreeing samples (and changes the other two arbitrarily)
yields the same received word. -/
theorem C6_spi_transfer_majority_vote (miso : Nat → Bool) :
    (∀ i, i < 16 →
        ((received_word miso).testBit (15 - i) = true ↔ 3 ≤ ones_in_pulse miso i))
      ∧ received_word miso < 65536
      ∧ (∀ miso2 : Nat → Bool, (∀ i, i < 16 → three_agree miso miso2 i) →
          spi_transfer miso2 1 = spi_transfer miso 1) := by
  refine ⟨?_, received_word_lt miso, ?_⟩
  · intro i hi
    rw [received_word_testBit miso i hi, decide_eq_true_iff]
  · intro miso2 h
    rw [spi_transfer_one, spi_transfer_one, received_word_congr miso miso2 h]

/-- Witness for C6: the word `0x8001` is received both from a steady line and from the
line with two inverted samples per pulse. -/
theorem C6_spi_transfer_majority_vote_witness :
    (∀ i, i < 16 → three_agree (miso_of_word 0x8001) miso_glitched i)
      ∧ ((received_word (miso_of_word 0x8001)).testBit (15 - 0) = true
          ↔ 3 ≤ ones_in_pulse (miso_of_word 0x8001) 0)
      ∧ spi_transfer miso_glitched 1 = spi_transfer (miso_of_word 0x8001) 1
      ∧ spi_transfer miso_glitched 1 = [0x8001] :=
  ⟨by decide,
    (C6_spi_transfer_majority_vote (miso_of_word 0x8001)).1 0 (by decide),
    (C6_spi_transfer_majority_vote (miso_of_word 0x8001)).2.2 miso_glitched (by decide),
    by decide⟩

/-- Counterexample to C7 as stated: with `enc_counts = 7` and the counter at 1 the code
returns the binary32 value `13481691 / 262144`, not `1 * 360 / 7`. -/
theorem C7_counterexample :
    abi_seven_counts.mode = ENCODER_MODE_ABI
      ∧ abi_seven_counts.enc_counts = 7
      ∧ abi_seven_counts.tim_cnt = 1
      ∧ (encoder_read_deg hw_plain 0 0 abi_seven_counts).1 = 13481691 / 262144
      ∧ (encoder_read_deg hw_plain 0 0 abi_seven_counts).1
          ≠ (((1 : Nat) : ℚ) * 360) / ((7 : Nat) : ℚ) := by
  have h : (encoder_read_deg hw_plain 0 0 abi_seven_counts).1 = 13481691 / 262144 := by
    rw [read_deg_abi hw_plain 0 0 abi_seven_counts rfl]
    exact abi_angle_1_7
  refine ⟨rfl, rfl, rfl, h, ?_⟩
  rw [h]
  norm_num

/-- C7 (amended): in quadrature mode with `enc_counts = n > 0` and counter value `c`,
`encoder_read_deg` returns the binary32 value of `((float)c * 360.0) / (float)n`.  For
`c, n < 2^24` it is within relative error `2^-23` of `c * 360 / n`, and it is exactly
`c * 360 / n` when that quotient is a binary32 value.  It is computed from the counter on
every call: it does not depend on the last-known angle or on the previously returned
angle, a later call returns the value for the counter at that call, and the same holds
after `encoder_set_counts` changed the divisor. -/
theorem C7_abi_read_from_counter (p : HwConfig) (sv cv : ℚ) (s : EncoderState) (n c : Nat)
    (hmode : s.mode = ENCODER_MODE_ABI) (hn : s.enc_counts = n) (hpos : 0 < n)
    (hc : s.tim_cnt = c) :
    (encoder_read_deg p sv cv s).1
        = f32 (f64 (f64 (f32 (c : ℚ) * 360) / f32 (n : ℚ)))
      ∧ (c < 2 ^ 24 → n < 2 ^ 24 →
          |(encoder_read_deg p sv cv s).1 - ((c : ℚ) * 360) / (n : ℚ)|
            ≤ ((c : ℚ) * 360) / (n : ℚ) * (2 : ℚ) ^ (-23 : ℤ))
      ∧ (c < 2 ^ 24 → n < 2 ^ 24 →
          ∀ (m : Nat) (k : ℤ), m < 2 ^ 24 →
            ((c : ℚ) * 360) / (n : ℚ) = (m : ℚ) * (2 : ℚ) ^ k →
            (encoder_read_deg p sv cv s).1 = ((c : ℚ) * 360) / (n : ℚ))
      ∧ (∀ a b : ℚ,
          (encoder_read_deg p sv cv { s with last_enc_angle := a, angle := b }).1
            = (encoder_read_deg p sv cv s).1)
      ∧ (∀ c2 : Nat,
          (encoder_read_deg p sv cv { (encoder_read_deg p sv cv s).2 with tim_cnt := c2 }).1
            = abi_angle c2 n)
      ∧ (∀ m : Nat, 0 < m →
          (encoder_read_deg p sv cv (encoder_set_counts m s)).1 = abi_angle c m) := by
  subst hn hc
  have hread := read_deg_abi p sv cv s hmode
  refine ⟨?_, ?_, ?_, ?_, ?_, ?_⟩
  · rw [hread]
    rfl
  · intro h1 h2
    rw [hread]
    exact abi_angle_error s.tim_cnt s.enc_counts h1 h2 hpos
  · intro h1 h2 m k hm hq
    rw [hread]
    exact abi_angle_exact s.tim_cnt s.enc_counts m k h1 h2 hm hq
  · intro a b
    rw [read_deg_abi_fst p sv cv s hmode]
    exact read_deg_abi_fst p sv cv { s with last_enc_angle := a, angle := b } hmode
  · intro c2
    rw [hread]
    exact read_deg_abi_fst p sv cv
      { s with angle := abi_angle s.tim_cnt s.enc_counts, tim_cnt := c2 } hmode
  · intro m _
    by_cases h : m = s.enc_counts
    · have e : encoder_set_counts m s = s := by
        unfold encoder_set_counts
        simp [h]
      rw [e, hread, h]
    · have e : encoder_set_counts m s
          = { s with
              enc_counts := m
              tim_arr := (3 * m % 2 ^ 32 + (2 ^ 32 - 1)) % 2 ^ 32 } := by
        unfold encoder_set_counts
        simp [h]
      rw [e]
      exact read_deg_abi_fst p sv cv
        { s with
          enc_counts := m
          tim_arr := (3 * m % 2 ^ 32 + (2 ^ 32 - 1)) % 2 ^ 32 } hmode

/-- Witness for C7 (amended): after `encoder_init_abi 8192` the counter is 12288 and the
quotient 540 is a binary32 value. -/
theorem C7_abi_read_from_counter_witness :
    (encoder_init_abi 8192 startup).mode = ENCODER_MODE_ABI
      ∧ (encoder_read_deg hw_plain 0 0 (encoder_init_abi 8192 startup)).1
          = (((12288 : Nat) : ℚ) * 360) / ((8192 : Nat) : ℚ) :=
  ⟨rfl, (C7_abi_read_from_counter hw_plain 0 0 (encoder_init_abi 8192 startup) 8192 12288
    rfl rfl (by decide) (by decide)).2.2.1 (by norm_num) (by norm_num) 135 2 (by norm_num)
      (by norm_num)⟩

/-- C9: the code at the failing input.  With unit gains and zero offsets the sample
`(sin, cos) = (1, 0)` has the binary32 `module` exactly `SQ(SINCOS_MIN_AMPLITUDE) = 1`;
`encoder_read_deg` runs the valid branch: it does not count a below-minimum fault, does
not raise the below-minimum rate, and moves the last-known angle from 0 to 45, where the
claim (and the comment on `SINCOS_MIN_AMPLITUDE`) asks for a fault. -/
theorem C9_min_boundary_read :
    sincos_unit_state.mode = ENCODER_MODE_SINCOS
      ∧ sincos_module sincos_unit_state 1 0 = SQ SINCOS_MIN_AMPLITUDE
      ∧ sincos_unit_state.last_enc_angle = 0
      ∧ sincos_unit_state.sincos_signal_below_min_error_cnt = 0
      ∧ (encoder_read_deg hw_sincos 1 0 sincos_unit_state).2.sincos_signal_below_min_error_cnt
          = 0
      ∧ (encoder_read_deg hw_sincos 1 0 sincos_unit_state).2.sincos_signal_low_error_rate = 0
      ∧ (encoder_read_deg hw_sincos 1 0 sincos_unit_state).2.last_enc_angle = 45
      ∧ (encoder_read_deg hw_sincos 1 0 sincos_unit_state).1 = 45 := by
  have hr := sincos_unit_valid_read 1 0 f32_one f32_zero
    (by rw [sincos_unit_module_one_zero, sincos_max_sq]; norm_num)
    (by rw [sincos_unit_module_one_zero, sincos_min_sq]; norm_num)
  have ha : hw_sincos.atan2_deg 1 0 * (1 / 2) = 45 := by norm_num [hw_sincos]
  rw [ha] at hr
  rw [hr]
  refine ⟨rfl, ?_, rfl, rfl, rfl, rfl, rfl, rfl⟩
  rw [sincos_unit_module_one_zero, sincos_min_sq]

theorem lp_fast_unit (r t : ℚ) (hr0 : 0 ≤ r) (hr1 : r ≤ 1) (ht0 : 0 ≤ t) (ht1 : t ≤ 1) :
    0 ≤ UTILS_LP_FAST r t (1 / 20000) ∧ UTILS_LP_FAST r t (1 / 20000) ≤ 1 := by
  unfold UTILS_LP_FAST
  constructor <;> linarith

theorem lp_fast_up (r : ℚ) (hr1 : r ≤ 1) :
    r ≤ UTILS_LP_FAST r 1 (1 / 20000) ∧ UTILS_LP_FAST r 1 (1 / 20000) ≤ 1 := by
  unfold UTILS_LP_FAST
  constructor <;> linarith

theorem lp_fast_down (r : ℚ) (hr0 : 0 ≤ r) :
    0 ≤ UTILS_LP_FAST r 0 (1 / 20000) ∧ UTILS_LP_FAST r 0 (1 / 20000) ≤ r := by
  unfold UTILS_LP_FAST
  constructor <;> linarith

theorem rates_tim_isr_as5047p (miso : Nat → Bool) (s : EncoderState)
    (h : rates_in_unit_interval s) : rates_in_unit_interval (encoder_tim_isr_as5047p miso s) := by
  obtain ⟨⟨a0, a1⟩, hb, hc⟩ := h
  unfold encoder_tim_isr_as5047p
  simp only []
  split
  · exact ⟨lp_fast_unit _ 0 a0 a1 le_rfl zero_le_one, hb, hc⟩
  · exact ⟨lp_fast_unit _ 1 a0 a1 zero_le_one le_rfl, hb, hc⟩

theorem rates_tim_isr_ad2s1205 (miso : Nat → Bool) (s : EncoderState)
    (h : rates_in_unit_interval s) : rates_in_unit_interval (encoder_tim_isr_ad2s1205 miso s) := by
  unfold encoder_tim_isr_ad2s1205
  simp only []
  split
  · exact h
  · exact h

theorem rates_tim_isr (miso : Nat → Bool) (s : EncoderState)
    (h : rates_in_unit_interval s) : rates_in_unit_interval (encoder_tim_isr miso s) := by
  unfold encoder_tim_isr
  simp only []
  split <;> split <;>
    first
      | exact h
      | exact rates_tim_isr_as5047p miso s h
      | exact rates_tim_isr_ad2s1205 miso s h
      | exact rates_tim_isr_ad2s1205 miso _ (rates_tim_isr_as5047p miso s h)

theorem rates_read_deg_sincos (p : HwConfig) (sv cv : ℚ) (s : EncoderState)
    (h : rates_in_unit_interval s) :
    rates_in_unit_interval (encoder_read_deg_sincos p sv cv s) := by
  obtain ⟨ha, ⟨b0, b1⟩, ⟨c0, c1⟩⟩ := h
  unfold encoder_read_deg_sincos
  simp only []
  split
  · exact ⟨ha, ⟨b0, b1⟩, lp_fast_unit _ 1 c0 c1 zero_le_one le_rfl⟩
  · split
    · exact ⟨ha, lp_fast_unit _ 1 b0 b1 zero_le_one le_rfl, ⟨c0, c1⟩⟩
    · exact ⟨ha, lp_fast_unit _ 0 b0 b1 le_rfl zero_le_one,
        lp_fast_unit _ 0 c0 c1 le_rfl zero_le_one⟩

theorem rates_read_deg (p : HwConfig) (sv cv : ℚ) (s : EncoderState)
    (h : rates_in_unit_interval s) :
    rates_in_unit_interval (encoder_read_deg p sv cv s).2 := by
  unfold encoder_read_deg
  simp only []
  split
  · exact h
  · exact h
  · exact h
  · split
    · exact rates_read_deg_sincos p sv cv s h
    · exact h
  · exact h

theorem rates_step (p : HwConfig) (e : DriverEvent) (s : EncoderState)
    (h : rates_in_unit_interval s) : rates_in_unit_interval (step p e s) := by
  have h01 : (0 : ℚ) ≤ 0 ∧ (0 : ℚ) ≤ 1 := ⟨le_rfl, zero_le_one⟩
  obtain ⟨ha, hb, hc⟩ := h
  cases e with
  | deinit => exact ⟨h01, h01, h01⟩
  | init_abi counts => exact ⟨ha, hb, hc⟩
  | init_as5047p_spi => exact ⟨h01, hb, hc⟩
  | init_ad2s1205_spi => exact ⟨ha, hb, hc⟩
  | init_sincos g_s o_s g_c o_c k => exact ⟨ha, h01, h01⟩
  | read_deg sv cv => exact rates_read_deg p sv cv s ⟨ha, hb, hc⟩
  | tim_isr miso => exact rates_tim_isr miso s ⟨ha, hb, hc⟩
  | reset pin =>
    show rates_in_unit_interval (encoder_reset pin s)
    unfold encoder_reset
    split
    · exact ⟨ha, hb, hc⟩
    · exact ⟨ha, hb, hc⟩
  | set_counts counts =>
    show rates_in_unit_interval (encoder_set_counts counts s)
    unfold encoder_set_counts
    split
    · exact ⟨ha, hb, hc⟩
    · exact ⟨ha, hb, hc⟩
  | counter_moves cnt => exact ⟨ha, hb, hc⟩

theorem rates_run (p : HwConfig) (evs : List DriverEvent) :
    ∀ s : EncoderState, rates_in_unit_interval s → rates_in_unit_interval (run p evs s) := by
  induction evs with
  | nil => intro s h; exact h
  | cons e evs ih =>
    intro s h
    exact ih (step p e s) (rates_step p e s h)

theorem rates_startup : rates_in_unit_interval startup := by
  refine ⟨⟨le_rfl, ?_⟩, ⟨le_rfl, ?_⟩, ⟨le_rfl, ?_⟩⟩ <;> exact zero_le_one

/-- C12: in every state reachable from startup by any sequence of driver events (inits,
deinit, timer ticks, reads, and also index resets, count changes and counter movements),
each of the three fault rates lies in `[0, 1]`; from such a state a faulty sample does not
lower the rate concerned and keeps it at most 1, and a healthy sample does not raise it and
keeps it at least 0. -/
theorem C12_fault_rates_stay_in_unit_interval (p : HwConfig) (evs : List DriverEvent) :
    rates_in_unit_interval (run p evs startup)
      ∧ (∀ miso : Nat → Bool, (run p evs startup).mode = ENCODER_MODE_AS5047P_SPI →
          (spi_check_parity (received_word miso) = false ∨ received_word miso = 0xFFFF →
            (run p evs startup).spi_error_rate
                ≤ (encoder_tim_isr miso (run p evs startup)).spi_error_rate
              ∧ (encoder_tim_isr miso (run p evs startup)).spi_error_rate ≤ 1)
          ∧ (spi_check_parity (received_word miso) = true ∧ received_word miso ≠ 0xFFFF →
            0 ≤ (encoder_tim_isr miso (run p evs startup)).spi_error_rate
              ∧ (encoder_tim_isr miso (run p evs startup)).spi_error_rate
                ≤ (run p evs startup).spi_error_rate))
      ∧ (∀ sv cv : ℚ, (run p evs startup).mode = ENCODER_MODE_SINCOS →
          p.HW_HAS_SIN_COS_ENCODER = true →
          (sincos_module (run p evs startup) sv cv > SQ SINCOS_MAX_AMPLITUDE →
            (run p evs startup).sincos_signal_above_max_error_rate
                ≤ (encoder_read_deg p sv cv
                    (run p evs startup)).2.sincos_signal_above_max_error_rate
              ∧ (encoder_read_deg p sv cv
                    (run p evs startup)).2.sincos_signal_above_max_error_rate ≤ 1)
          ∧ (sincos_module (run p evs startup) sv cv < SQ SINCOS_MIN_AMPLITUDE →
            (run p evs startup).sincos_signal_low_error_rate
                ≤ (encoder_read_deg p sv cv (run p evs startup)).2.sincos_signal_low_error_rate
              ∧ (encoder_read_deg p sv cv
                    (run p evs startup)).2.sincos_signal_low_error_rate ≤ 1)
          ∧ (SQ SINCOS_MIN_AMPLITUDE ≤ sincos_module (run p evs startup) sv cv
              ∧ sincos_module (run p evs startup) sv cv ≤ SQ SINCOS_MAX_AMPLITUDE →
            (0 ≤ (encoder_read_deg p sv cv (run p evs startup)).2.sincos_signal_low_error_rate
              ∧ (encoder_read_deg p sv cv (run p evs startup)).2.sincos_signal_low_error_rate
                ≤ (run p evs startup).sincos_signal_low_error_rate)
            ∧ (0 ≤ (encoder_read_deg p sv cv
                    (run p evs startup)).2.sincos_signal_above_max_error_rate
              ∧ (encoder_read_deg p sv cv
                    (run p evs startup)).2.sincos_signal_above_max_error_rate
                ≤ (run p evs startup).sincos_signal_above_max_error_rate))) := by
  have hinv := rates_run p evs startup rates_startup
  generalize run p evs startup = s at hinv ⊢
  obtain ⟨⟨a0, a1⟩, ⟨b0, b1⟩, ⟨c0, c1⟩⟩ := hinv
  refine ⟨⟨⟨a0, a1⟩, ⟨b0, b1⟩, ⟨c0, c1⟩⟩, ?_, ?_⟩
  · intro miso hmode
    rw [tim_isr_of_as5047p miso s hmode]
    constructor
    · intro hbad
      rw [tim_isr_as5047p_reject miso s hbad]
      exact lp_fast_up _ a1
    · intro hgood
      rw [tim_isr_as5047p_accept miso s hgood.1 hgood.2]
      exact lp_fast_down _ a0
  · intro sv cv hmode hhw
    rw [read_deg_sincos p sv cv s hmode hhw]
    refine ⟨?_, ?_, ?_⟩
    · intro h
      rw [read_deg_sincos_above p sv cv s h]
      exact lp_fast_up _ c1
    · intro h
      rw [read_deg_sincos_below p sv cv s
        (not_lt.mpr (le_of_lt (lt_trans h sq_min_lt_sq_max))) h]
      exact lp_fast_up _ b1
    · intro h
      rw [read_deg_sincos_valid p sv cv s (not_lt.mpr h.2) (not_lt.mpr h.1)]
      exact ⟨lp_fast_down _ b0, lp_fast_down _ c0⟩

/-- Witness for C12: the state after `encoder_init_as5047p_spi` and one tick that receives
the all-ones word. -/
theorem C12_fault_rates_stay_in_unit_interval_witness :
    (run hw_plain [DriverEvent.init_as5047p_spi, DriverEvent.tim_isr (miso_of_word 0xFFFF)]
        startup).mode = ENCODER_MODE_AS5047P_SPI
      ∧ rates_in_unit_interval
          (run hw_plain [DriverEvent.init_as5047p_spi, DriverEvent.tim_isr (miso_of_word 0xFFFF)]
            startup)
      ∧ (run hw_plain [DriverEvent.init_as5047p_spi, DriverEvent.tim_isr (miso_of_word 0xFFFF)]
            startup).spi_error_rate
          ≤ (encoder_tim_isr (miso_of_word 0xFFFF)
              (run hw_plain
                [DriverEvent.init_as5047p_spi, DriverEvent.tim_isr (miso_of_word 0xFFFF)]
                startup)).spi_error_rate :=
  ⟨by decide,
    (C12_fault_rates_stay_in_unit_interval hw_plain
      [DriverEvent.init_as5047p_spi, DriverEvent.tim_isr (miso_of_word 0xFFFF)]).1,
    (((C12_fault_rates_stay_in_unit_interval hw_plain
      [DriverEvent.init_as5047p_spi, DriverEvent.tim_isr (miso_of_word 0xFFFF)]).2.1
        (miso_of_word 0xFFFF) (by decide)).1 (Or.inr (by decide))).1⟩

theorem calibration_eq (s t : EncoderState) (sv cv : ℚ)
    (h1 : t.sin_gain = s.sin_gain) (h2 : t.sin_offset = s.sin_offset)
    (h3 : t.cos_gain = s.cos_gain) (h4 : t.cos_offset = s.cos_offset) :
    calibrated_sin t sv = calibrated_sin s sv ∧ calibrated_cos t cv = calibrated_cos s cv
      ∧ sincos_module t sv cv = sincos_module s sv cv := by
  simp only [sincos_module, calibrated_sin, calibrated_cos, h1, h2, h3, h4]
  exact ⟨trivial, trivial, trivial⟩

theorem repeated_reads_valid (p : HwConfig) (s : EncoderState) (sv cv : ℚ)
    (hmode : s.mode = ENCODER_MODE_SINCOS) (hhw : p.HW_HAS_SIN_COS_ENCODER = true)
    (hmin : SQ SINCOS_MIN_AMPLITUDE ≤ sincos_module s sv cv)
    (hmax : sincos_module s sv cv ≤ SQ SINCOS_MAX_AMPLITUDE) :
    ∀ n : Nat,
      (repeated_reads p sv cv n s).mode = ENCODER_MODE_SINCOS
        ∧ (repeated_reads p sv cv n s).sin_gain = s.sin_gain
        ∧ (repeated_reads p sv cv n s).sin_offset = s.sin_offset
        ∧ (repeated_reads p sv cv n s).cos_gain = s.cos_gain
        ∧ (repeated_reads p sv cv n s).cos_offset = s.cos_offset
        ∧ (repeated_reads p sv cv n s).sincos_filter_constant = s.sincos_filter_constant
        ∧ encoder_read_deg p sv cv (repeated_reads p sv cv n s)
            = ((repeated_reads p sv cv (n + 1) s).angle, repeated_reads p sv cv (n + 1) s)
        ∧ (repeated_reads p sv cv (n + 1) s).angle
            = UTILS_LP_FAST (repeated_reads p sv cv n s).angle
                (p.atan2_deg (calibrated_sin s sv) (calibrated_cos s cv))
                s.sincos_filter_constant
        ∧ (repeated_reads p sv cv (n + 1) s).last_enc_angle
            = (repeated_reads p sv cv (n + 1) s).angle := by
  have key : ∀ t : EncoderState, t.mode = ENCODER_MODE_SINCOS → t.sin_gain = s.sin_gain →
      t.sin_offset = s.sin_offset → t.cos_gain = s.cos_gain → t.cos_offset = s.cos_offset →
      t.sincos_filter_constant = s.sincos_filter_constant →
      encoder_read_deg p sv cv t
        = (UTILS_LP_FAST t.angle (p.atan2_deg (calibrated_sin s sv) (calibrated_cos s cv))
              s.sincos_filter_constant,
            { t with
              sincos_signal_above_max_error_rate :=
                UTILS_LP_FAST t.sincos_signal_above_max_error_rate 0 (1 / SINCOS_SAMPLE_RATE_HZ)
              sincos_signal_low_error_rate :=
                UTILS_LP_FAST t.sincos_signal_low_error_rate 0 (1 / SINCOS_SAMPLE_RATE_HZ)
              angle := UTILS_LP_FAST t.angle
                (p.atan2_deg (calibrated_sin s sv) (calibrated_cos s cv)) s.sincos_filter_constant
              last_enc_angle := UTILS_LP_FAST t.angle
                (p.atan2_deg (calibrated_sin s sv) (calibrated_cos s cv))
                s.sincos_filter_constant }) := by
    intro t hm h1 h2 h3 h4 h5
    obtain ⟨e1, e2, e3⟩ := calibration_eq s t sv cv h1 h2 h3 h4
    rw [read_deg_sincos p sv cv t hm hhw,
      read_deg_sincos_valid p sv cv t (by rw [e3]; exact not_lt.mpr hmax)
        (by rw [e3]; exact not_lt.mpr hmin), e1, e2, h5]
  intro n
  induction n with
  | zero =>
    have hr := key s hmode rfl rfl rfl rfl rfl
    have e : repeated_reads p sv cv (0 + 1) s = (encoder_read_deg p sv cv s).2 := rfl
    have e0 : repeated_reads p sv cv 0 s = s := rfl
    rw [e, e0, hr]
    exact ⟨hmode, rfl, rfl, rfl, rfl, rfl, rfl, rfl, rfl⟩
  | succ n ih =>
    have hst : repeated_reads p sv cv (n + 1) s
        = (encoder_read_deg p sv cv (repeated_reads p sv cv n s)).2 := rfl
    obtain ⟨m0, g1, g2, g3, g4, g5, _, _, _⟩ := ih
    have hr0 := key (repeated_reads p sv cv n s) m0 g1 g2 g3 g4 g5
    have hm1 : (repeated_reads p sv cv (n + 1) s).mode = ENCODER_MODE_SINCOS := by
      rw [hst, hr0]; exact m0
    have k1 : (repeated_reads p sv cv (n + 1) s).sin_gain = s.sin_gain := by
      rw [hst, hr0]; exact g1
    have k2 : (repeated_reads p sv cv (n + 1) s).sin_offset = s.sin_offset := by
      rw [hst, hr0]; exact g2
    have k3 : (repeated_reads p sv cv (n + 1) s).cos_gain = s.cos_gain := by
      rw [hst, hr0]; exact g3
    have k4 : (repeated_reads p sv cv (n + 1) s).cos_offset = s.cos_offset := by
      rw [hst, hr0]; exact g4
    have k5 : (repeated_reads p sv cv (n + 1) s).sincos_filter_constant
        = s.sincos_filter_constant := by
      rw [hst, hr0]; exact g5
    have hr1 := key (repeated_reads p sv cv (n + 1) s) hm1 k1 k2 k3 k4 k5
    have hst2 : repeated_reads p sv cv (n + 1 + 1) s
        = (encoder_read_deg p sv cv (repeated_reads p sv cv (n + 1) s)).2 := rfl
    refine ⟨hm1, k1, k2, k3, k4, k5, ?_, ?_, ?_⟩
    · rw [hst2, hr1]
    · rw [hst2, hr1]
    · rw [hst2, hr1]

theorem filter_error_pow (a : Nat → ℚ) (T k : ℚ)
    (hstep : ∀ n, a (n + 1) - T = (1 - k) * (a n - T)) :
    ∀ n, a n - T = (1 - k) ^ n * (a 0 - T) := by
  intro n
  induction n with
  | zero => simp
  | succ n ih => rw [hstep n, ih, pow_succ]; ring

theorem filter_error_small (d k ε : ℚ) (hk0 : 0 < k) (hk1 : k ≤ 1) (hε : 0 < ε) :
    ∃ N : Nat, ∀ n, N ≤ n → |(1 - k) ^ n * d| < ε := by
  have hq0 : (0 : ℚ) ≤ 1 - k := by linarith
  have hq1 : 1 - k < 1 := by linarith
  have hd : (0 : ℚ) < |d| + 1 := by positivity
  obtain ⟨N, hN⟩ := exists_pow_lt_of_lt_one (div_pos hε hd) hq1
  refine ⟨N, fun n hn => ?_⟩
  have hle : (1 - k) ^ n ≤ (1 - k) ^ N := pow_le_pow_of_le_one hq0 (le_of_lt hq1) hn
  have hpow0 : (0 : ℚ) ≤ (1 - k) ^ n := pow_nonneg hq0 n
  rw [abs_mul, abs_of_nonneg hpow0]
  have h1 : (1 - k) ^ n * |d| ≤ (1 - k) ^ N * |d| :=
    mul_le_mul_of_nonneg_right hle (abs_nonneg d)
  have h2 : (1 - k) ^ N * |d| ≤ (1 - k) ^ N * (|d| + 1) :=
    mul_le_mul_of_nonneg_left (by linarith) (pow_nonneg hq0 N)
  have h3 : (1 - k) ^ N * (|d| + 1) < ε := by
    rw [lt_div_iff₀ hd] at hN
    exact hN
  linarith

/-- C13: in sin/cos mode with filter constant `k` in `(0, 1]`, repeated reads with the same
valid input whose arctangent angle is `T` return filtered angles `a_1, a_2, ...` (with
`a_0` the static angle before the first read) that satisfy
`a_(n+1) - T = (1 - k) * (a_n - T)`, hence `a_n - T = (1 - k)^n * (a_0 - T)`; the error
`|a_n - T|` never grows, `a_n` stays on the side of `T` it started on, and `a_n` converges
to `T`. -/
theorem C13_sincos_filter_converges (p : HwConfig) (s : EncoderState) (sv cv k T : ℚ)
    (hmode : s.mode = ENCODER_MODE_SINCOS) (hhw : p.HW_HAS_SIN_COS_ENCODER = true)
    (hk : s.sincos_filter_constant = k) (hk0 : 0 < k) (hk1 : k ≤ 1)
    (hmin : SQ SINCOS_MIN_AMPLITUDE ≤ sincos_module s sv cv)
    (hmax : sincos_module s sv cv ≤ SQ SINCOS_MAX_AMPLITUDE)
    (hT : p.atan2_deg (calibrated_sin s sv) (calibrated_cos s cv) = T) :
    (∀ n, (encoder_read_deg p sv cv (repeated_reads p sv cv n s)).1
        = (repeated_reads p sv cv (n + 1) s).angle)
      ∧ (∀ n, (repeated_reads p sv cv (n + 1) s).angle - T
          = (1 - k) * ((repeated_reads p sv cv n s).angle - T))
      ∧ (∀ n, (repeated_reads p sv cv n s).angle - T = (1 - k) ^ n * (s.angle - T))
      ∧ (∀ n, |(repeated_reads p sv cv (n + 1) s).angle - T|
          ≤ |(repeated_reads p sv cv n s).angle - T|)
      ∧ (∀ n, (s.angle ≤ T → (repeated_reads p sv cv n s).angle ≤ T)
          ∧ (T ≤ s.angle → T ≤ (repeated_reads p sv cv n s).angle))
      ∧ (∀ ε : ℚ, 0 < ε →
          ∃ N : Nat, ∀ n, N ≤ n → |(repeated_reads p sv cv n s).angle - T| < ε) := by
  have hinv := repeated_reads_valid p s sv cv hmode hhw hmin hmax
  have hq0 : (0 : ℚ) ≤ 1 - k := by linarith
  have hq1 : 1 - k ≤ 1 := by linarith
  have hstep : ∀ n, (repeated_reads p sv cv (n + 1) s).angle - T
      = (1 - k) * ((repeated_reads p sv cv n s).angle - T) := by
    intro n
    rw [(hinv n).2.2.2.2.2.2.2.1, hT, hk]
    unfold UTILS_LP_FAST
    ring
  have hpow := filter_error_pow (fun n => (repeated_reads p sv cv n s).angle) T k hstep
  have hpow2 : ∀ n, (repeated_reads p sv cv n s).angle - T = (1 - k) ^ n * (s.angle - T) :=
    hpow
  refine ⟨?_, hstep, hpow2, ?_, ?_, ?_⟩
  · intro n
    rw [(hinv n).2.2.2.2.2.2.1]
  · intro n
    rw [hstep n, abs_mul, abs_of_nonneg hq0]
    exact mul_le_of_le_one_left (abs_nonneg _) hq1
  · intro n
    have hp := hpow2 n
    have hpn : (0 : ℚ) ≤ (1 - k) ^ n := pow_nonneg hq0 n
    constructor
    · intro h
      have : (1 - k) ^ n * (s.angle - T) ≤ 0 :=
        mul_nonpos_of_nonneg_of_nonpos hpn (by linarith)
      linarith
    · intro h
      have : 0 ≤ (1 - k) ^ n * (s.angle - T) := mul_nonneg hpn (by linarith)
      linarith
  · intro ε hε
    obtain ⟨N, hN⟩ := filter_error_small (s.angle - T) k ε hk0 hk1 hε
    refine ⟨N, fun n hn => ?_⟩
    rw [hpow2 n]
    exact hN n hn

/-- Witness for C13: unit gains, filter constant 1/2, the sample `(1, 0)` with arctangent
angle 90; the first two reads return 45 and 67.5. -/
theorem C13_sincos_filter_converges_witness :
    (repeated_reads hw_sincos 1 0 1 sincos_unit_state).angle - 90
        = (1 - 1 / 2) * ((repeated_reads hw_sincos 1 0 0 sincos_unit_state).angle - 90)
      ∧ (repeated_reads hw_sincos 1 0 2 sincos_unit_state).angle - 90
        = (1 - 1 / 2) ^ 2 * (sincos_unit_state.angle - 90)
      ∧ (encoder_read_deg hw_sincos 1 0 (repeated_reads hw_sincos 1 0 1 sincos_unit_state)).1
        = (repeated_reads hw_sincos 1 0 2 sincos_unit_state).angle :=
  have h := C13_sincos_filter_converges hw_sincos sincos_unit_state 1 0 (1 / 2) 90 rfl rfl rfl
    (by norm_num) (by norm_num)
    (by rw [sincos_unit_module_one_zero, sincos_min_sq])
    (by rw [sincos_unit_module_one_zero, sincos_max_sq]; norm_num)
    (by rw [(sincos_unit_calibrated 1 f32_one).1, (sincos_unit_calibrated 0 f32_zero).2]
        norm_num [hw_sincos])
  ⟨h.2.1 0, h.2.2.1 2, h.1 1⟩

theorem init_sincos_mode (p : HwConfig) (hhw : p.HW_HAS_SIN_COS_ENCODER = true)
    (g_s o_s g_c o_c k : ℚ) (t : EncoderState) :
    (encoder_init_sincos p g_s o_s g_c o_c k t).mode = ENCODER_MODE_SINCOS := by
  unfold encoder_init_sincos
  simp [hhw]

theorem read_after_init_sincos (p : HwConfig) (hhw : p.HW_HAS_SIN_COS_ENCODER = true)
    (g_s o_s g_c o_c k sv cv : ℚ) (t : EncoderState) :
    (encoder_read_deg p sv cv (encoder_init_sincos p g_s o_s g_c o_c k t)).1
      = if SQ SINCOS_MIN_AMPLITUDE
              ≤ sincos_module (encoder_init_sincos p g_s o_s g_c o_c k t) sv cv
            ∧ sincos_module (encoder_init_sincos p g_s o_s g_c o_c k t) sv cv
              ≤ SQ SINCOS_MAX_AMPLITUDE then
          t.angle
            + (p.atan2_deg (calibrated_sin (encoder_init_sincos p g_s o_s g_c o_c k t) sv)
                (calibrated_cos (encoder_init_sincos p g_s o_s g_c o_c k t) cv) - t.angle) * k
        else t.last_enc_angle := by
  have hm := init_sincos_mode p hhw g_s o_s g_c o_c k t
  rw [read_deg_sincos p sv cv _ hm hhw]
  by_cases h1 : sincos_module (encoder_init_sincos p g_s o_s g_c o_c k t) sv cv
      > SQ SINCOS_MAX_AMPLITUDE
  · rw [read_deg_sincos_above p sv cv _ h1]
    rw [if_neg (fun h => absurd h1 (not_lt.mpr h.2))]
    rfl
  · by_cases h2 : sincos_module (encoder_init_sincos p g_s o_s g_c o_c k t) sv cv
        < SQ SINCOS_MIN_AMPLITUDE
    · rw [read_deg_sincos_below p sv cv _ h1 h2]
      rw [if_neg (fun h => absurd h2 (not_lt.mpr h.1))]
      rfl
    · rw [read_deg_sincos_valid p sv cv _ h1 h2]
      rw [if_pos ⟨not_lt.mp h2, not_lt.mp h1⟩]
      rfl

/-- The calibration and the `module` of a sin/cos sample depend on the gains and offsets
only, which `encoder_init_sincos` takes from its arguments. -/
theorem init_sincos_calibration (p : HwConfig) (g_s o_s g_c o_c k sv cv : ℚ)
    (t u : EncoderState) :
    sincos_module (encoder_init_sincos p g_s o_s g_c o_c k t) sv cv
        = sincos_module (encoder_init_sincos p g_s o_s g_c o_c k u) sv cv
      ∧ calibrated_sin (encoder_init_sincos p g_s o_s g_c o_c k t) sv
        = calibrated_sin (encoder_init_sincos p g_s o_s g_c o_c k u) sv
      ∧ calibrated_cos (encoder_init_sincos p g_s o_s g_c o_c k t) cv
        = calibrated_cos (encoder_init_sincos p g_s o_s g_c o_c k u) cv :=
  ⟨rfl, rfl, rfl⟩

theorem abi_then_sincos_state (c : Nat) :
    run hw_sincos (abi_then_sincos c) startup
      = encoder_init_sincos hw_sincos 1 0 1 0 (1 / 2)
          { encoder_init_abi 8192 startup with
            tim_cnt := c
            angle := abi_angle c 8192 } := by
  simp only [run, abi_then_sincos, List.foldl, step]
  rw [read_deg_abi hw_sincos 0 0 _ rfl]
  rfl

theorem abi_then_sincos_read (c : Nat) :
    (encoder_read_deg hw_sincos 1 0 (run hw_sincos (abi_then_sincos c) startup)).1
      = abi_angle c 8192 + (90 - abi_angle c 8192) * (1 / 2) := by
  have hmod : sincos_module
      (encoder_init_sincos hw_sincos 1 0 1 0 (1 / 2)
        { encoder_init_abi 8192 startup with tim_cnt := c, angle := abi_angle c 8192 }) 1 0
      = 1 := sincos_unit_module_one_zero
  have hsin : calibrated_sin
      (encoder_init_sincos hw_sincos 1 0 1 0 (1 / 2)
        { encoder_init_abi 8192 startup with tim_cnt := c, angle := abi_angle c 8192 }) 1
      = 1 := (sincos_unit_calibrated 1 f32_one).1
  have hcos : calibrated_cos
      (encoder_init_sincos hw_sincos 1 0 1 0 (1 / 2)
        { encoder_init_abi 8192 startup with tim_cnt := c, angle := abi_angle c 8192 }) 0
      = 0 := (sincos_unit_calibrated 0 f32_zero).2
  rw [abi_then_sincos_state, read_after_init_sincos hw_sincos rfl, hmod, hsin, hcos,
    sincos_min_sq, sincos_max_sq, if_pos (by norm_num)]
  norm_num [hw_sincos]

/-- Counterexample to C14 as stated: two runs that differ only in the counter value read
in quadrature mode (0 and 4096) return different angles, 45 and 135, from the first
sin/cos read of the same sample `(1, 0)`. -/
theorem C14_counterexample :
    (encoder_read_deg hw_sincos 1 0 (run hw_sincos (abi_then_sincos 0) startup)).1 = 45
      ∧ (encoder_read_deg hw_sincos 1 0 (run hw_sincos (abi_then_sincos 4096) startup)).1 = 135
      ∧ (encoder_read_deg hw_sincos 1 0 (run hw_sincos (abi_then_sincos 0) startup)).1
        ≠ (encoder_read_deg hw_sincos 1 0 (run hw_sincos (abi_then_sincos 4096) startup)).1 := by
  have h0 : abi_angle 0 8192 = 0 := by
    rw [abi_angle_exact 0 8192 0 0 (by norm_num) (by norm_num) (by norm_num) (by norm_num)]
    norm_num
  have h180 : abi_angle 4096 8192 = 180 := by
    rw [abi_angle_exact 4096 8192 180 0 (by norm_num) (by norm_num) (by norm_num)
      (by norm_num)]
    norm_num
  have hA : (encoder_read_deg hw_sincos 1 0 (run hw_sincos (abi_then_sincos 0) startup)).1
      = 45 := by
    rw [abi_then_sincos_read, h0]
    norm_num
  have hB : (encoder_read_deg hw_sincos 1 0 (run hw_sincos (abi_then_sincos 4096) startup)).1
      = 135 := by
    rw [abi_then_sincos_read, h180]
    norm_num
  refine ⟨hA, hB, ?_⟩
  rw [hA, hB]
  norm_num

/-- C14 (amended): a quadrature read writes only the static angle of `encoder_read_deg`.
After a switch to sin/cos mode the first read does not read the counter, but its low-pass
filter starts from that static angle `a`: when the `module` computed by the code lies in
the valid band it returns `a + (T - a) * k` with `T` the arctangent angle, and otherwise it
returns the last-known angle.  Two runs that differ only in the counter values read before
the switch return the same angle when their last quadrature reads returned the same angle,
and in the valid band their results differ by `(1 - k)` times the difference of those
angles. -/
theorem C14_sincos_read_after_quadrature (p : HwConfig) (t : EncoderState)
    (g_s o_s g_c o_c k sv cv : ℚ)
    (hhw : p.HW_HAS_SIN_COS_ENCODER = true) (hmode : t.mode = ENCODER_MODE_ABI) :
    (∀ sv0 cv0 : ℚ, (encoder_read_deg p sv0 cv0 t).2
        = { t with angle := (encoder_read_deg p sv0 cv0 t).1 })
      ∧ (∀ (c : Nat) (a : ℚ),
          (encoder_read_deg p sv cv
            (encoder_init_sincos p g_s o_s g_c o_c k { t with tim_cnt := c, angle := a })).1
            = if SQ SINCOS_MIN_AMPLITUDE
                    ≤ sincos_module (encoder_init_sincos p g_s o_s g_c o_c k t) sv cv
                  ∧ sincos_module (encoder_init_sincos p g_s o_s g_c o_c k t) sv cv
                    ≤ SQ SINCOS_MAX_AMPLITUDE then
                a + (p.atan2_deg
                      (calibrated_sin (encoder_init_sincos p g_s o_s g_c o_c k t) sv)
                      (calibrated_cos (encoder_init_sincos p g_s o_s g_c o_c k t) cv) - a) * k
              else t.last_enc_angle)
      ∧ (∀ (c1 c2 : Nat) (a : ℚ),
          (encoder_read_deg p sv cv
            (encoder_init_sincos p g_s o_s g_c o_c k { t with tim_cnt := c1, angle := a })).1
            = (encoder_read_deg p sv cv
                (encoder_init_sincos p g_s o_s g_c o_c k
                  { t with tim_cnt := c2, angle := a })).1)
      ∧ (SQ SINCOS_MIN_AMPLITUDE
              ≤ sincos_module (encoder_init_sincos p g_s o_s g_c o_c k t) sv cv
            ∧ sincos_module (encoder_init_sincos p g_s o_s g_c o_c k t) sv cv
              ≤ SQ SINCOS_MAX_AMPLITUDE →
          ∀ (c1 c2 : Nat) (a1 a2 : ℚ),
            (encoder_read_deg p sv cv
              (encoder_init_sincos p g_s o_s g_c o_c k { t with tim_cnt := c1, angle := a1 })).1
              - (encoder_read_deg p sv cv
                  (encoder_init_sincos p g_s o_s g_c o_c k
                    { t with tim_cnt := c2, angle := a2 })).1
              = (1 - k) * (a1 - a2)) := by
  have hform : ∀ (c : Nat) (a : ℚ),
      (encoder_read_deg p sv cv
        (encoder_init_sincos p g_s o_s g_c o_c k { t with tim_cnt := c, angle := a })).1
        = if SQ SINCOS_MIN_AMPLITUDE
                ≤ sincos_module (encoder_init_sincos p g_s o_s g_c o_c k t) sv cv
              ∧ sincos_module (encoder_init_sincos p g_s o_s g_c o_c k t) sv cv
                ≤ SQ SINCOS_MAX_AMPLITUDE then
            a + (p.atan2_deg
                  (calibrated_sin (encoder_init_sincos p g_s o_s g_c o_c k t) sv)
                  (calibrated_cos (encoder_init_sincos p g_s o_s g_c o_c k t) cv) - a) * k
          else t.last_enc_angle := by
    intro c a
    rw [read_after_init_sincos p hhw]
    rfl
  refine ⟨?_, hform, ?_, ?_⟩
  · intro sv0 cv0
    rw [read_deg_abi p sv0 cv0 t hmode]
  · intro c1 c2 a
    rw [hform c1 a, hform c2 a]
  · intro hvalid c1 c2 a1 a2
    rw [hform c1 a1, hform c2 a2]
    simp only [if_pos hvalid]
    ring

/-- Witness for C14 (amended): quadrature mode with 8192 counts, then sin/cos mode with
unit gains and the valid sample `(1, 0)`. -/
theorem C14_sincos_read_after_quadrature_witness :
    (encoder_init_abi 8192 startup).mode = ENCODER_MODE_ABI
      ∧ (encoder_read_deg hw_sincos 1 0
          (encoder_init_sincos hw_sincos 1 0 1 0 (1 / 2)
            { encoder_init_abi 8192 startup with tim_cnt := 0, angle := 0 })).1
        = (encoder_read_deg hw_sincos 1 0
            (encoder_init_sincos hw_sincos 1 0 1 0 (1 / 2)
              { encoder_init_abi 8192 startup with tim_cnt := 4096, angle := 0 })).1 :=
  ⟨rfl, (C14_sincos_read_after_quadrature hw_sincos (encoder_init_abi 8192 startup)
    1 0 1 0 (1 / 2) 1 0 rfl rfl).2.2.1 0 4096 0⟩

theorem sincos_after_fault_cnt :
    sincos_after_fault.sincos_signal_above_max_error_cnt = 1 := by
  have hb : sincos_module sincos_unit_state 2 0 > SQ SINCOS_MAX_AMPLITUDE := by
    rw [sincos_unit_module_two_zero, sincos_max_sq]
    norm_num
  unfold sincos_after_fault
  rw [read_deg_sincos hw_sincos 2 0 sincos_unit_state rfl rfl,
    read_deg_sincos_above hw_sincos 2 0 sincos_unit_state hb]
  rfl

/-- Counterexample to C15 as stated: after one rejected frame `spi_error_cnt` is 1 and
still 1 after `encoder_deinit`; after one saturated sin/cos sample the above-maximum
counter is 1 and still 1 after `encoder_deinit`. -/
theorem C15_counterexample :
    as5047p_after_fault.spi_error_cnt = 1
      ∧ (encoder_deinit as5047p_after_fault).spi_error_cnt = 1
      ∧ (encoder_deinit as5047p_after_fault).spi_error_cnt ≠ 0
      ∧ sincos_after_fault.sincos_signal_above_max_error_cnt = 1
      ∧ (encoder_deinit sincos_after_fault).sincos_signal_above_max_error_cnt = 1
      ∧ (encoder_deinit sincos_after_fault).sincos_signal_above_max_error_cnt ≠ 0 := by
  have h : (encoder_deinit sincos_after_fault).sincos_signal_above_max_error_cnt = 1 :=
    sincos_after_fault_cnt
  refine ⟨by decide, by decide, by decide, sincos_after_fault_cnt, h, ?_⟩
  rw [h]
  decide

/-- C15 (amended): from every state, after `encoder_deinit` the mode is None
(`encoder_is_configured` returns false), the last-known angle is 0 and all three filtered
fault rates are 0; the three fault counters keep the values they had. -/
theorem C15_deinit_resets_mode_angle_rates (s : EncoderState) :
    (encoder_deinit s).mode = ENCODER_MODE_NONE
      ∧ encoder_is_configured (encoder_deinit s) = false
      ∧ (encoder_deinit s).last_enc_angle = 0
      ∧ encoder_spi_get_error_rate (encoder_deinit s) = 0
      ∧ encoder_sincos_get_signal_below_min_error_rate (encoder_deinit s) = 0
      ∧ encoder_sincos_get_signal_above_max_error_rate (encoder_deinit s) = 0
      ∧ encoder_spi_get_error_cnt (encoder_deinit s) = encoder_spi_get_error_cnt s
      ∧ encoder_sincos_get_signal_below_min_error_cnt (encoder_deinit s)
          = encoder_sincos_get_signal_below_min_error_cnt s
      ∧ encoder_sincos_get_signal_above_max_error_cnt (encoder_deinit s)
          = encoder_sincos_get_signal_above_max_error_cnt s :=
  ⟨rfl, rfl, rfl, rfl, rfl, rfl, rfl, rfl, rfl⟩

/-- Counterexample to C16 as stated: after one rejected frame, calling
`encoder_init_as5047p_spi` again leaves `spi_error_cnt` at 1. -/
theorem C16_counterexample :
    as5047p_after_fault.spi_error_cnt = 1
      ∧ (encoder_init_as5047p_spi as5047p_after_fault).spi_error_cnt = 1
      ∧ (encoder_init_as5047p_spi as5047p_after_fault).spi_error_cnt ≠ 0 := by
  decide

/-- C16 (amended): after `encoder_init_as5047p_spi` the absolute-SPI fault rate is 0 and the
fault counter `spi_error_cnt` keeps its value; after `encoder_init_sincos` both sin/cos
fault counters and both fault rates are 0 and the stored calibration equals the arguments;
calling the same init twice in a row yields the same state as calling it once. -/
theorem C16_init_reinitializes (p : HwConfig) (s : EncoderState)
    (g_s o_s g_c o_c k : ℚ) (counts : Nat) :
    ((encoder_init_as5047p_spi s).spi_error_rate = 0
        ∧ (encoder_init_as5047p_spi s).spi_error_cnt = s.spi_error_cnt)
      ∧ ((encoder_init_sincos p g_s o_s g_c o_c k s).sincos_signal_below_min_error_cnt = 0
        ∧ (encoder_init_sincos p g_s o_s g_c o_c k s).sincos_signal_above_max_error_cnt = 0
        ∧ (encoder_init_sincos p g_s o_s g_c o_c k s).sincos_signal_low_error_rate = 0
        ∧ (encoder_init_sincos p g_s o_s g_c o_c k s).sincos_signal_above_max_error_rate = 0
        ∧ (encoder_init_sincos p g_s o_s g_c o_c k s).sin_gain = g_s
        ∧ (encoder_init_sincos p g_s o_s g_c o_c k s).sin_offset = o_s
        ∧ (encoder_init_sincos p g_s o_s g_c o_c k s).cos_gain = g_c
        ∧ (encoder_init_sincos p g_s o_s g_c o_c k s).cos_offset = o_c
        ∧ (encoder_init_sincos p g_s o_s g_c o_c k s).sincos_filter_constant = k)
      ∧ (encoder_init_as5047p_spi (encoder_init_as5047p_spi s) = encoder_init_as5047p_spi s
        ∧ encoder_init_sincos p g_s o_s g_c o_c k (encoder_init_sincos p g_s o_s g_c o_c k s)
            = encoder_init_sincos p g_s o_s g_c o_c k s
        ∧ encoder_init_ad2s1205_spi (encoder_init_ad2s1205_spi s) = encoder_init_ad2s1205_spi s
        ∧ encoder_init_abi counts (encoder_init_abi counts s) = encoder_init_abi counts s) :=
  ⟨⟨rfl, rfl⟩, ⟨rfl, rfl, rfl, rfl, rfl, rfl, rfl, rfl, rfl⟩, ⟨rfl, rfl, rfl, rfl⟩⟩

theorem read_deg_none (p : HwConfig) (sv cv : ℚ) (s : EncoderState)
    (hmode : s.mode = ENCODER_MODE_NONE) :
    encoder_read_deg p sv cv s = (s.angle, s) := by
  unfold encoder_read_deg
  simp only [hmode]

/-- Counterexample to C17 as stated: after `encoder_init_abi 8192`, one read (which returns
540) and `encoder_deinit`, the mode is None and `encoder_read_deg` returns 540, not 0. -/
theorem C17_counterexample :
    abi_read_then_deinit.mode = ENCODER_MODE_NONE
      ∧ (encoder_read_deg hw_plain 0 0 startup).1 = 0
      ∧ (encoder_read_deg hw_plain 0 0 abi_read_then_deinit).1 = 540
      ∧ (encoder_read_deg hw_plain 0 0 abi_read_then_deinit).1 ≠ 0 := by
  have hst : abi_read_then_deinit
      = encoder_deinit { encoder_init_abi 8192 startup with
          angle := abi_angle 12288 8192 } := by
    simp only [abi_read_then_deinit, run, List.foldl, step]
    rw [read_deg_abi hw_plain 0 0 _ rfl]
    rfl
  have h540 : (encoder_read_deg hw_plain 0 0 abi_read_then_deinit).1 = 540 := by
    rw [read_deg_none hw_plain 0 0 _ (by rw [hst]; rfl), hst]
    exact abi_angle_12288_8192
  refine ⟨by rw [hst]; rfl, ?_, h540, ?_⟩
  · rw [read_deg_none hw_plain 0 0 startup rfl]
    rfl
  · rw [h540]
    norm_num

/-- C17 (amended): whenever the mode is None, `encoder_read_deg` changes no driver state and
returns the static angle left by the previous read, the same value on every call while the
mode stays None; that value is 0 at startup, and `encoder_deinit` does not reset it, so
after reads in another mode followed by deinit it is the angle last returned. -/
theorem C17_read_in_mode_none (p : HwConfig) (sv cv : ℚ) (s : EncoderState)
    (hmode : s.mode = ENCODER_MODE_NONE) :
    encoder_read_deg p sv cv s = (s.angle, s)
      ∧ (∀ (n : Nat) (sv2 cv2 : ℚ),
          (encoder_read_deg p sv2 cv2 (repeated_reads p sv cv n s)).1 = s.angle
            ∧ repeated_reads p sv cv n s = s)
      ∧ (encoder_read_deg p sv cv startup).1 = 0
      ∧ (∀ t : EncoderState, (encoder_deinit t).angle = t.angle
          ∧ (encoder_read_deg p sv cv (encoder_deinit t)).1 = t.angle) := by
  have hrep : ∀ n : Nat, repeated_reads p sv cv n s = s := by
    intro n
    induction n with
    | zero => rfl
    | succ n ih =>
      show (encoder_read_deg p sv cv (repeated_reads p sv cv n s)).2 = s
      rw [ih, read_deg_none p sv cv s hmode]
  refine ⟨read_deg_none p sv cv s hmode, ?_, ?_, ?_⟩
  · intro n sv2 cv2
    rw [hrep n, read_deg_none p sv2 cv2 s hmode]
    exact ⟨rfl, rfl⟩
  · rw [read_deg_none p sv cv startup rfl]
    rfl
  · intro t
    refine ⟨rfl, ?_⟩
    rw [read_deg_none p sv cv (encoder_deinit t) rfl]
    rfl

/-- Witness for C17 (amended): the state after a quadrature read and `encoder_deinit`. -/
theorem C17_read_in_mode_none_witness :
    abi_read_then_deinit.mode = ENCODER_MODE_NONE
      ∧ encoder_read_deg hw_plain 0 0 abi_read_then_deinit
          = (abi_read_then_deinit.angle, abi_read_then_deinit) :=
  have hm : abi_read_then_deinit.mode = ENCODER_MODE_NONE := by
    simp only [abi_read_then_deinit, run, List.foldl, step]
    rfl
  ⟨hm, (C17_read_in_mode_none hw_plain 0 0 abi_read_then_deinit hm).1⟩

/-- C18: `encoder_reset` issues the command "zero current" exactly once when the index pin
reads high at the re-check and issues nothing when it reads low; in both cases the hardware
counter, `enc_counts`, the mode, the last-known angle and all fault counters and rates are
unchanged. -/
theorem C18_encoder_reset_safety_action (s : EncoderState) :
    encoder_reset true s = { s with current_cmds := 0 :: s.current_cmds }
      ∧ (encoder_reset true s).current_cmds.length = s.current_cmds.length + 1
      ∧ encoder_reset false s = s
      ∧ (∀ pin : Bool,
          (encoder_reset pin s).tim_cnt = s.tim_cnt
            ∧ (encoder_reset pin s).tim_arr = s.tim_arr
            ∧ (encoder_reset pin s).enc_counts = s.enc_counts
            ∧ (encoder_reset pin s).mode = s.mode
            ∧ (encoder_reset pin s).last_enc_angle = s.last_enc_angle
            ∧ (encoder_reset pin s).angle = s.angle
            ∧ (encoder_reset pin s).spi_error_cnt = s.spi_error_cnt
            ∧ (encoder_reset pin s).spi_error_rate = s.spi_error_rate
            ∧ (encoder_reset pin s).sincos_signal_below_min_error_cnt
                = s.sincos_signal_below_min_error_cnt
            ∧ (encoder_reset pin s).sincos_signal_above_max_error_cnt
                = s.sincos_signal_above_max_error_cnt
            ∧ (encoder_reset pin s).sincos_signal_low_error_rate
                = s.sincos_signal_low_error_rate
            ∧ (encoder_reset pin s).sincos_signal_above_max_error_rate
                = s.sincos_signal_above_max_error_rate) := by
  have ht : encoder_reset true s = { s with current_cmds := 0 :: s.current_cmds } := rfl
  have hf : encoder_reset false s = s := rfl
  refine ⟨ht, ?_, hf, ?_⟩
  · rw [ht]
    rfl
  · intro pin
    cases pin
    · rw [hf]
      exact ⟨rfl, rfl, rfl, rfl, rfl, rfl, rfl, rfl, rfl, rfl, rfl, rfl⟩
    · rw [ht]
      exact ⟨rfl, rfl, rfl, rfl, rfl, rfl, rfl, rfl, rfl, rfl, rfl, rfl⟩

theorem read_deg_mode (p : HwConfig) (sv cv : ℚ) (s : EncoderState) :
    (encoder_read_deg p sv cv s).2.mode = s.mode := by
  unfold encoder_read_deg
  simp only []
  split
  · rfl
  · rfl
  · rfl
  · split
    · unfold encoder_read_deg_sincos
      simp only []
      split
      · rfl
      · split <;> rfl
    · rfl
  · rfl

theorem tim_isr_ad2s1205_mode (miso : Nat → Bool) (s : EncoderState) :
    (encoder_tim_isr_ad2s1205 miso s).mode = s.mode := by
  rw [tim_isr_ad2s1205_eq]
  split <;> rfl

theorem tim_isr_other_modes (miso : Nat → Bool) (s : EncoderState)
    (h1 : s.mode ≠ ENCODER_MODE_AS5047P_SPI) (h2 : s.mode ≠ RESOLVER_MODE_AD2S1205) :
    encoder_tim_isr miso s = s := by
  unfold encoder_tim_isr
  simp only []
  rw [if_neg h1, if_neg h2]

theorem tim_isr_mode (miso : Nat → Bool) (s : EncoderState) :
    (encoder_tim_isr miso s).mode = s.mode := by
  by_cases h1 : s.mode = ENCODER_MODE_AS5047P_SPI
  · rw [tim_isr_of_as5047p miso s h1, tim_isr_as5047p_mode]
  · by_cases h2 : s.mode = RESOLVER_MODE_AD2S1205
    · rw [tim_isr_of_ad2s1205 miso s h2, tim_isr_ad2s1205_mode]
    · rw [tim_isr_other_modes miso s h1 h2]

theorem set_counts_mode (counts : Nat) (s : EncoderState) :
    (encoder_set_counts counts s).mode = s.mode := by
  unfold encoder_set_counts
  split <;> rfl

theorem reset_mode (pin : Bool) (s : EncoderState) : (encoder_reset pin s).mode = s.mode := by
  cases pin <;> rfl

/-- C19: the mode changes only through the init operations and `encoder_deinit`:
`encoder_tim_isr`, `encoder_read_deg`, `encoder_set_counts`, `encoder_reset` (and a
movement of the counter) leave it unchanged, so an event that changes the mode is an init
or deinit; the diagnostic getters only read a field; a timer tick while the mode is None,
quadrature or sin/cos changes nothing at all; and `encoder_is_configured` is true exactly
when the mode is not None. -/
theorem C19_mode_changes_only_by_init_deinit (p : HwConfig) (s : EncoderState) :
    (∀ miso : Nat → Bool, (encoder_tim_isr miso s).mode = s.mode)
      ∧ (∀ sv cv : ℚ, (encoder_read_deg p sv cv s).2.mode = s.mode)
      ∧ (∀ counts : Nat, (encoder_set_counts counts s).mode = s.mode)
      ∧ (∀ pin : Bool, (encoder_reset pin s).mode = s.mode)
      ∧ (∀ e : DriverEvent, (step p e s).mode ≠ s.mode →
          e = DriverEvent.deinit ∨ (∃ counts, e = DriverEvent.init_abi counts)
            ∨ e = DriverEvent.init_as5047p_spi ∨ e = DriverEvent.init_ad2s1205_spi
            ∨ (∃ g_s o_s g_c o_c k, e = DriverEvent.init_sincos g_s o_s g_c o_c k))
      ∧ (encoder_spi_get_error_cnt s = s.spi_error_cnt
          ∧ encoder_spi_get_val s = s.spi_val
          ∧ encoder_spi_get_error_rate s = s.spi_error_rate
          ∧ encoder_sincos_get_signal_below_min_error_cnt s
              = s.sincos_signal_below_min_error_cnt
          ∧ encoder_sincos_get_signal_above_max_error_cnt s
              = s.sincos_signal_above_max_error_cnt
          ∧ encoder_sincos_get_signal_below_min_error_rate s = s.sincos_signal_low_error_rate
          ∧ encoder_sincos_get_signal_above_max_error_rate s
              = s.sincos_signal_above_max_error_rate)
      ∧ (∀ miso : Nat → Bool,
          s.mode = ENCODER_MODE_NONE ∨ s.mode = ENCODER_MODE_ABI
            ∨ s.mode = ENCODER_MODE_SINCOS →
          encoder_tim_isr miso s = s)
      ∧ (encoder_is_configured s = true ↔ s.mode ≠ ENCODER_MODE_NONE) := by
  refine ⟨fun miso => tim_isr_mode miso s, fun sv cv => read_deg_mode p sv cv s,
    fun counts => set_counts_mode counts s, fun pin => reset_mode pin s, ?_,
    ⟨rfl, rfl, rfl, rfl, rfl, rfl, rfl⟩, ?_, ?_⟩
  · intro e he
    cases e with
    | deinit => exact Or.inl rfl
    | init_abi counts => exact Or.inr (Or.inl ⟨counts, rfl⟩)
    | init_as5047p_spi => exact Or.inr (Or.inr (Or.inl rfl))
    | init_ad2s1205_spi => exact Or.inr (Or.inr (Or.inr (Or.inl rfl)))
    | init_sincos g_s o_s g_c o_c k =>
      exact Or.inr (Or.inr (Or.inr (Or.inr ⟨g_s, o_s, g_c, o_c, k, rfl⟩)))
    | read_deg sv cv => exact absurd (read_deg_mode p sv cv s) he
    | tim_isr miso => exact absurd (tim_isr_mode miso s) he
    | reset pin => exact absurd (reset_mode pin s) he
    | set_counts counts => exact absurd (set_counts_mode counts s) he
    | counter_moves cnt => exact absurd rfl he
  · intro miso h
    apply tim_isr_other_modes
    · rcases h with h | h | h <;> rw [h] <;> decide
    · rcases h with h | h | h <;> rw [h] <;> decide
  · unfold encoder_is_configured
    cases s.mode <;> decide

/-- Witness for C19: a timer tick in quadrature mode changes nothing. -/
theorem C19_mode_changes_only_by_init_deinit_witness :
    (encoder_init_abi 8192 startup).mode = ENCODER_MODE_ABI
      ∧ encoder_tim_isr (miso_of_word 0x8001) (encoder_init_abi 8192 startup)
          = encoder_init_abi 8192 startup :=
  ⟨rfl, (C19_mode_changes_only_by_init_deinit hw_plain (encoder_init_abi 8192 startup)).2.2.2.2.2.2.1
    (miso_of_word 0x8001) (Or.inr (Or.inl rfl))⟩

theorem as5047p_angle_range (w : Nat) :
    (0 : ℚ) ≤ (((w &&& 0x3FFF : Nat) : ℚ) * 360) / 16384
      ∧ (((w &&& 0x3FFF : Nat) : ℚ) * 360) / 16384 ≤ ((16383 : ℚ) * 360) / 16384
      ∧ (((w &&& 0x3FFF : Nat) : ℚ) * 360) / 16384 < 360 := by
  have hle : w &&& 0x3FFF ≤ 0x3FFF := Nat.and_le_right
  have hq : ((w &&& 0x3FFF : Nat) : ℚ) ≤ 16383 := by exact_mod_cast hle
  have h0 : (0 : ℚ) ≤ ((w &&& 0x3FFF : Nat) : ℚ) := Nat.cast_nonneg _
  refine ⟨by positivity, ?_, ?_⟩
  · linarith
  · linarith

theorem ad2s1205_angle_range (w : Nat) (hw : w < 65536) :
    (0 : ℚ) ≤ (((w >>> 4 : Nat) : ℚ) * 360) / 4096
      ∧ (((w >>> 4 : Nat) : ℚ) * 360) / 4096 ≤ ((4095 : ℚ) * 360) / 4096
      ∧ (((w >>> 4 : Nat) : ℚ) * 360) / 4096 < 360 := by
  have hle : w >>> 4 ≤ 4095 := by
    rw [Nat.shiftRight_eq_div_pow]
    omega
  have hq : ((w >>> 4 : Nat) : ℚ) ≤ 4095 := by exact_mod_cast hle
  have h0 : (0 : ℚ) ≤ ((w >>> 4 : Nat) : ℚ) := Nat.cast_nonneg _
  refine ⟨by positivity, ?_, ?_⟩
  · linarith
  · linarith

theorem tim_isr_as5047p_angle (miso : Nat → Bool) (s : EncoderState)
    (hmode : s.mode = ENCODER_MODE_AS5047P_SPI) :
    (encoder_tim_isr miso s).last_enc_angle = s.last_enc_angle
      ∨ (encoder_tim_isr miso s).last_enc_angle
          = (((received_word miso &&& 0x3FFF : Nat) : ℚ) * 360) / 16384 := by
  rw [tim_isr_of_as5047p miso s hmode]
  by_cases h : spi_check_parity (received_word miso) = true ∧ received_word miso ≠ 0xFFFF
  · rw [tim_isr_as5047p_accept miso s h.1 h.2]
    exact Or.inr rfl
  · have hbad : spi_check_parity (received_word miso) = false ∨ received_word miso = 0xFFFF := by
      by_cases hp : spi_check_parity (received_word miso) = true
      · right
        by_contra hne
        exact h ⟨hp, hne⟩
      · left
        simpa using hp
    rw [tim_isr_as5047p_reject miso s hbad]
    exact Or.inl rfl

theorem tim_isr_ad2s1205_angle (miso : Nat → Bool) (s : EncoderState)
    (hmode : s.mode = RESOLVER_MODE_AD2S1205) :
    (encoder_tim_isr miso s).last_enc_angle = s.last_enc_angle
      ∨ (encoder_tim_isr miso s).last_enc_angle
          = (((received_word miso >>> 4 : Nat) : ℚ) * 360) / 4096 := by
  rw [tim_isr_of_ad2s1205 miso s hmode, tim_isr_ad2s1205_eq]
  split
  · exact Or.inr rfl
  · exact Or.inl rfl

theorem tim_isr_angle_range (miso : Nat → Bool) (s : EncoderState)
    (hmode : s.mode = ENCODER_MODE_AS5047P_SPI ∨ s.mode = RESOLVER_MODE_AD2S1205)
    (h0 : 0 ≤ s.last_enc_angle) (h1 : s.last_enc_angle < 360) :
    0 ≤ (encoder_tim_isr miso s).last_enc_angle
      ∧ (encoder_tim_isr miso s).last_enc_angle < 360 := by
  rcases hmode with hm | hm
  · rcases tim_isr_as5047p_angle miso s hm with h | h
    · rw [h]; exact ⟨h0, h1⟩
    · rw [h]
      exact ⟨(as5047p_angle_range _).1, (as5047p_angle_range _).2.2⟩
  · rcases tim_isr_ad2s1205_angle miso s hm with h | h
    · rw [h]; exact ⟨h0, h1⟩
    · rw [h]
      exact ⟨(ad2s1205_angle_range _ (received_word_lt miso)).1,
        (ad2s1205_angle_range _ (received_word_lt miso)).2.2⟩

theorem ticks_angle_range (misos : List (Nat → Bool)) :
    ∀ s : EncoderState,
      s.mode = ENCODER_MODE_AS5047P_SPI ∨ s.mode = RESOLVER_MODE_AD2S1205 →
      0 ≤ s.last_enc_angle → s.last_enc_angle < 360 →
      (ticks misos s).mode = s.mode
        ∧ 0 ≤ (ticks misos s).last_enc_angle ∧ (ticks misos s).last_enc_angle < 360 := by
  induction misos with
  | nil => intro s _ h0 h1; exact ⟨rfl, h0, h1⟩
  | cons miso rest ih =>
    intro s hmode h0 h1
    have hm := tim_isr_mode miso s
    have hr := tim_isr_angle_range miso s hmode h0 h1
    have hstep := ih (encoder_tim_isr miso s) (by rw [hm]; exact hmode) hr.1 hr.2
    have e : ticks (miso :: rest) s = ticks rest (encoder_tim_isr miso s) := rfl
    rw [e]
    exact ⟨hstep.1.trans hm, hstep.2.1, hstep.2.2⟩

theorem read_deg_spi_modes (p : HwConfig) (sv cv : ℚ) (s : EncoderState)
    (hmode : s.mode = ENCODER_MODE_AS5047P_SPI ∨ s.mode = RESOLVER_MODE_AD2S1205) :
    (encoder_read_deg p sv cv s).1 = s.last_enc_angle := by
  unfold encoder_read_deg
  rcases hmode with h | h <;> simp only [h]

/-- C20: starting in absolute-SPI or resolver mode with the last-known angle in `[0, 360)`,
every sequence of timer ticks with arbitrary received words keeps the mode and keeps the
last-known angle in `[0, 360)`, so `encoder_read_deg` returns a value in `[0, 360)`; a tick
either holds the angle or sets it to at most `16383 * 360 / 16384` (absolute) or
`4095 * 360 / 4096` (resolver), and these maxima are reached by the words `0x3FFF` and
`0xFFFE`. -/
theorem C20_spi_angle_stays_in_range (p : HwConfig) (s : EncoderState)
    (misos : List (Nat → Bool))
    (hmode : s.mode = ENCODER_MODE_AS5047P_SPI ∨ s.mode = RESOLVER_MODE_AD2S1205)
    (h0 : 0 ≤ s.last_enc_angle) (h1 : s.last_enc_angle < 360) :
    (ticks misos s).mode = s.mode
      ∧ (0 ≤ (ticks misos s).last_enc_angle ∧ (ticks misos s).last_enc_angle < 360)
      ∧ (∀ sv cv : ℚ,
          (encoder_read_deg p sv cv (ticks misos s)).1 = (ticks misos s).last_enc_angle
            ∧ 0 ≤ (encoder_read_deg p sv cv (ticks misos s)).1
            ∧ (encoder_read_deg p sv cv (ticks misos s)).1 < 360)
      ∧ (∀ miso : Nat → Bool, s.mode = ENCODER_MODE_AS5047P_SPI →
          ((encoder_tim_isr miso s).last_enc_angle = s.last_enc_angle
            ∨ (encoder_tim_isr miso s).last_enc_angle ≤ ((16383 : ℚ) * 360) / 16384)
          ∧ (encoder_tim_isr (miso_of_word 0x3FFF) s).last_enc_angle
              = ((16383 : ℚ) * 360) / 16384)
      ∧ (∀ miso : Nat → Bool, s.mode = RESOLVER_MODE_AD2S1205 →
          ((encoder_tim_isr miso s).last_enc_angle = s.last_enc_angle
            ∨ (encoder_tim_isr miso s).last_enc_angle ≤ ((4095 : ℚ) * 360) / 4096)
          ∧ (encoder_tim_isr (miso_of_word 0xFFFE) s).last_enc_angle
              = ((4095 : ℚ) * 360) / 4096) := by
  obtain ⟨hm, hr0, hr1⟩ := ticks_angle_range misos s hmode h0 h1
  refine ⟨hm, ⟨hr0, hr1⟩, ?_, ?_, ?_⟩
  · intro sv cv
    rw [read_deg_spi_modes p sv cv (ticks misos s) (by rw [hm]; exact hmode)]
    exact ⟨rfl, hr0, hr1⟩
  · intro miso hAS
    constructor
    · rcases tim_isr_as5047p_angle miso s hAS with h | h
      · exact Or.inl h
      · right
        rw [h]
        exact (as5047p_angle_range _).2.1
    · have hw : received_word (miso_of_word 0x3FFF) = 0x3FFF := by decide
      rw [tim_isr_of_as5047p _ s hAS,
        tim_isr_as5047p_accept _ s (by rw [hw]; decide) (by rw [hw]; decide), hw]
      show (((0x3FFF &&& 0x3FFF : Nat) : ℚ) * 360) / 16384 = _
      norm_num
  · intro miso hRES
    constructor
    · rcases tim_isr_ad2s1205_angle miso s hRES with h | h
      · exact Or.inl h
      · right
        rw [h]
        exact (ad2s1205_angle_range _ (received_word_lt miso)).2.1
    · have hw : received_word (miso_of_word 0xFFFE) = 0xFFFE := by decide
      rw [tim_isr_of_ad2s1205 _ s hRES, tim_isr_ad2s1205_eq, hw]
      rw [if_pos (by decide)]
      have e : (0xFFFE >>> 4 : Nat) = 4095 := by decide
      show (((0xFFFE >>> 4 : Nat) : ℚ) * 360) / 4096 = _
      rw [e]
      norm_num

/-- Witness for C20: three ticks (a valid word, the all-ones word, a parity error) after
`encoder_init_as5047p_spi` at startup. -/
theorem C20_spi_angle_stays_in_range_witness :
    (encoder_init_as5047p_spi startup).mode = ENCODER_MODE_AS5047P_SPI
      ∧ (0 ≤ (ticks [miso_of_word 0x8001, miso_of_word 0xFFFF, miso_of_word 0x8000]
            (encoder_init_as5047p_spi startup)).last_enc_angle
        ∧ (ticks [miso_of_word 0x8001, miso_of_word 0xFFFF, miso_of_word 0x8000]
            (encoder_init_as5047p_spi startup)).last_enc_angle < 360) :=
  ⟨rfl, (C20_spi_angle_stays_in_range hw_plain (encoder_init_as5047p_spi startup)
    [miso_of_word 0x8001, miso_of_word 0xFFFF, miso_of_word 0x8000] (Or.inl rfl)
    (by show (0 : ℚ) ≤ 0; exact le_rfl) (by show (0 : ℚ) < 360; norm_num)).2.1⟩

end Encoder
